import Mathlib

/-!
# tormask: a SOCKS4 connect client

A shallow embedding of `tormask.go` and a verification of its handshake.

Go values are embedded as follows.

* A Go `string` or `[]byte` is a `List Nat` of bytes (`Bytes`); string constants of the
  program text are written `str "..."`.
* `byte` and `uint16` are `Nat`, reduced `% 256` and `% 65536` where the program converts.
* `int` is `Int`.
* A fallible call returns `Option` (Go `nil`) or `Except` (Go `error`).
* The process is a function from a `World` (everything the operating system and the network
  supply) to a `Run` (the effects performed, in order, and the exit code).

The first part models the functions of the Go standard library that the program calls
(`net.ParseIP`, `IP.To4`, `IP.To16`, `copy`, `strings.Contains`, `binary.Write`,
`binary.Read`); the second part is the program itself, definition for definition, `main`
from `flag.Parse()` on, with the outcome of the parsing of the command line taken from the
`World`.
-/

namespace Tormask

/-! ## Go values -/

deriving instance DecidableEq for Except

/-- A Go string or byte slice: a sequence of bytes. -/
abbrev Bytes := List Nat

/-- The bytes of a string constant of the program text; every such constant is ASCII, so
its bytes are its character codes. -/
def str (s : String) : Bytes := s.data.map Char.toNat

/-- Go built-in `copy(dst, src)`: overwrites the first `min(len(dst), len(src))` elements of
`dst` with those of `src` and leaves the rest of `dst` as it was. -/
def copy (dst src : Bytes) : Bytes := src.take dst.length ++ dst.drop src.length

/-- Go `strings.Contains(s, substr)`: some suffix of `s` starts with `substr`. -/
def stringsContains : Bytes → Bytes → Bool
  | [], substr => substr.isEmpty
  | c :: cs, substr => (substr.isPrefixOf (c :: cs)) || stringsContains cs substr

/-- Decimal digits of a natural number, as `fmt` prints them for `%d`. -/
def fmtNat (n : Nat) : Bytes := (Nat.toDigits 10 n).map Char.toNat

/-- Go `%d` of an `int`. -/
def fmtInt (i : Int) : Bytes :=
  if i < 0 then 45 :: fmtNat (-i).toNat else fmtNat i.toNat

/-! ## `net.ParseIP` (Go standard library, `net/netip`) -/

/-- Go `netip.parseIPv4Fields` on the slice `s`: the loop over the bytes of `s`, with `i` the
index of the current byte, `prev` the byte before it (`s[i-1]`), and `val`, `pos`, `digLen`,
`fields` the loop variables of the same names. `none` is any parse error. -/
def parseIPv4Fields : Bytes → Nat → Nat → Nat → Nat → Nat → Bytes → Option Bytes
  | [], _, _, val, pos, _, fields =>
    if pos < 3 then none else some (fields.set 3 (val % 256))
  | c :: cs, i, prev, val, pos, digLen, fields =>
    if 48 ≤ c ∧ c ≤ 57 then
      if digLen = 1 ∧ val = 0 then none
      else
        let val := val * 10 + (c - 48)
        if val > 255 then none
        else parseIPv4Fields cs (i + 1) c val pos (digLen + 1) fields
    else if c = 46 then
      if i = 0 ∨ cs.isEmpty ∨ prev = 46 then none
      else if pos = 3 then none
      else parseIPv4Fields cs (i + 1) c 0 (pos + 1) 0 (fields.set pos (val % 256))
    else none

/-- Go `netip.parseIPv4`: the four octets of a dotted-decimal literal. -/
def parseIPv4 (s : Bytes) : Option Bytes :=
  parseIPv4Fields s 0 0 0 0 0 [0, 0, 0, 0]

/-- Value of a hexadecimal digit, `none` for any other byte. -/
def hexVal (c : Nat) : Option Nat :=
  if 48 ≤ c ∧ c ≤ 57 then some (c - 48)
  else if 97 ≤ c ∧ c ≤ 102 then some (c - 97 + 10)
  else if 65 ≤ c ∧ c ≤ 70 then some (c - 65 + 10)
  else none

/-- The inner loop of Go `netip.parseIPv6` that reads one hexadecimal group: returns the
number `off` of digits read and their value `acc` (a `uint32`), or `none` on an error
(more than four digits, or a value above `0xffff`). -/
def hexGroup : Bytes → Nat → Nat → Option (Nat × Nat)
  | [], off, acc => some (off, acc)
  | c :: cs, off, acc =>
    match hexVal c with
    | none => some (off, acc)
    | some v =>
      let acc := (acc * 16 % 2 ^ 32 + v) % 2 ^ 32
      if off > 3 then none
      else if acc > 65535 then none
      else hexGroup cs (off + 1) acc

/-- The main loop `for i < 16` of Go `netip.parseIPv6`. The state is the unread input `s`, the
address `ip` (16 bytes), the position `ellipsis` of `::` (`-1` when none was seen) and the
write index `i`. Every iteration that continues advances `i` by 2, so nine units of fuel
cover every run. The result is the state at loop exit, `none` on a parse error. -/
def parseIPv6Loop : Nat → Bytes → Bytes → Int → Nat → Option (Bytes × Bytes × Int × Nat)
  | 0, _, _, _, _ => none
  | fuel + 1, s, ip, ellipsis, i =>
    if ¬ i < 16 then some (s, ip, ellipsis, i)
    else
      match hexGroup s 0 0 with
      | none => none
      | some (off, acc) =>
        if off = 0 then none
        else if off < s.length ∧ s.getD off 0 = 46 then
          if ellipsis < 0 ∧ i ≠ 12 then none
          else if i + 4 > 16 then none
          else
            match parseIPv4Fields s 0 0 0 0 0 ((ip.drop i).take 4) with
            | none => none
            | some fields => some ([], ip.take i ++ fields ++ ip.drop (i + 4), ellipsis, i + 4)
        else
          let ip := (ip.set i (acc / 256 % 256)).set (i + 1) (acc % 256)
          let i := i + 2
          let s := s.drop off
          if s.length = 0 then some (s, ip, ellipsis, i)
          else if s.getD 0 0 ≠ 58 then none
          else if s.length = 1 then none
          else
            let s := s.drop 1
            if s.getD 0 0 = 58 then
              if ellipsis ≥ 0 then none
              else
                let s := s.drop 1
                if s.length = 0 then some (s, ip, (i : Int), i)
                else parseIPv6Loop fuel s ip (i : Int) i
            else parseIPv6Loop fuel s ip ellipsis i

/-- The end of Go `netip.parseIPv6`: the whole input must be used, and a short address is
completed by moving the groups after `::` to the end and zeroing the gap. -/
def expandEllipsis (s ip : Bytes) (ellipsis : Int) (i : Nat) : Option Bytes :=
  if s.length ≠ 0 then none
  else if i < 16 then
    if ellipsis < 0 then none
    else
      let e := ellipsis.toNat
      some (ip.take e ++ List.replicate (16 - i) 0 ++ (ip.drop e).take (i - e))
  else if ellipsis ≥ 0 then none
  else some ip

/-- Go `netip.parseIPv6`: the 16 bytes of the address and its zone. -/
def parseIPv6 (input : Bytes) : Option (Bytes × Bytes) :=
  let k := input.indexOf 37
  let s := input.take k
  let zone := input.drop (k + 1)
  if k < input.length ∧ zone.isEmpty then none
  else
    let ip := List.replicate 16 0
    if s.length ≥ 2 ∧ s.getD 0 0 = 58 ∧ s.getD 1 0 = 58 then
      let s := s.drop 2
      if s.length = 0 then some (ip, zone)
      else
        match parseIPv6Loop 9 s ip 0 0 with
        | none => none
        | some (s, ip, ellipsis, i) => (expandEllipsis s ip ellipsis i).map (fun a => (a, zone))
    else
      match parseIPv6Loop 9 s ip (-1) 0 with
      | none => none
      | some (s, ip, ellipsis, i) => (expandEllipsis s ip ellipsis i).map (fun a => (a, zone))

/-- A Go `netip.Addr`: an IPv4 address (4 bytes) or an IPv6 address (16 bytes) with a zone. -/
inductive Addr where
  | v4 (octets : Bytes)
  | v6 (bytes : Bytes) (zone : Bytes)
  deriving DecidableEq, Repr

/-- The scan of Go `netip.ParseAddr`: the first `.`, `:` or `%` of the string decides the
parser; `rest` is the part of `s` not yet scanned. -/
def ParseAddrScan : Bytes → Bytes → Option Addr
  | [], _ => none
  | c :: cs, s =>
    if c = 46 then (parseIPv4 s).map Addr.v4
    else if c = 58 then (parseIPv6 s).map (fun r => Addr.v6 r.1 r.2)
    else if c = 37 then none
    else ParseAddrScan cs s

/-- Go `netip.ParseAddr`. -/
def ParseAddr (s : Bytes) : Option Addr := ParseAddrScan s s

/-- The 12 bytes that precede an IPv4 address in its 16-byte form. -/
def v4InV6Prefix : Bytes := [0, 0, 0, 0, 0, 0, 0, 0, 0, 0, 255, 255]

/-- Go `net.ParseIP`: the 16-byte form of the address (`Addr.As16`), `none` (Go `nil`) when the
string does not parse or carries a zone. -/
def ParseIP (s : Bytes) : Option Bytes :=
  match ParseAddr s with
  | none => none
  | some (Addr.v4 octets) => some (v4InV6Prefix ++ octets)
  | some (Addr.v6 bytes zone) => if zone.isEmpty then some bytes else none

/-- Go `IP.To4`: the 4-byte form of an IPv4 address, `none` (Go `nil`) for any other. -/
def To4 (ip : Bytes) : Option Bytes :=
  if ip.length = 4 then some ip
  else if ip.length = 16 ∧ (ip.take 10).all (fun b => b = 0) ∧ ip.getD 10 0 = 255
      ∧ ip.getD 11 0 = 255 then
    some ((ip.drop 12).take 4)
  else none

/-- Go `IP.To16`: the 16-byte form of an address, `none` (Go `nil`) for a wrong length. -/
def To16 (ip : Bytes) : Option Bytes :=
  if ip.length = 4 then some (v4InV6Prefix ++ ip)
  else if ip.length = 16 then some ip
  else none

/-! ## The program: constants and structures -/

/-- The constant `User`. -/
def User : Bytes := str "tormask"

/-- The constant `ProxyIP`. -/
def ProxyIP : Bytes := str "127.0.0.1"

/-- The constant `ProxyPort`. -/
def ProxyPort : Nat := 9050

/-- The struct `ProxyRequest`: `DstIP` is a `[4]byte`, `UserID` a `[8]byte`. -/
structure ProxyRequest where
  Vn : Nat
  Cd : Nat
  DstPort : Nat
  DstIP : Bytes
  UserID : Bytes
  deriving DecidableEq, Repr

/-- The struct `ProxyResponse`; the blank `[6]byte` field carries no value. -/
structure ProxyResponse where
  Vn : Nat
  Cd : Nat
  deriving DecidableEq, Repr

/-- Function `CreateRequest`, with the constant `User` taken as a parameter. -/
def CreateRequestWith (user : Bytes) (dstip : Bytes) (dstport : Int) :
    Except Bytes ProxyRequest :=
  match ParseIP dstip with
  | none => .error (str "invalid IP address")
  | some ip =>
    let dstIP : Bytes := [0, 0, 0, 0]
    let filled : Option Bytes :=
      match To4 ip with
      | some ip4 => some (copy dstIP ip4)
      | none =>
        match To16 ip with
        | some ip16 => some (copy dstIP ip16)
        | none => none
    match filled with
    | none => .error (str "unsupported IP address format")
    | some dstIP =>
      let req : ProxyRequest :=
        { Vn := 4, Cd := 1, DstPort := (dstport % 65536).toNat, DstIP := dstIP,
          UserID := [0, 0, 0, 0, 0, 0, 0, 0] }
      .ok { req with UserID := copy req.UserID user }

/-- Function `CreateRequest`: it creates a SOCKS4 request. -/
def CreateRequest (dstip : Bytes) (dstport : Int) : Except Bytes ProxyRequest :=
  CreateRequestWith User dstip dstport

/-- The loop over `addrs` of `ResolveHost`: the first address without a colon. -/
def firstIPv4 : List Bytes → Option Bytes
  | [] => none
  | addr :: addrs => if stringsContains addr (str ":") then firstIPv4 addrs else some addr

/-- Function `ResolveHost`: it resolves a hostname to an IP address; `LookupHost` is
`net.LookupHost`. -/
def ResolveHost (LookupHost : Bytes → Except Bytes (List Bytes)) (host : Bytes) :
    Except Bytes Bytes :=
  match LookupHost host with
  | .error err => .error err
  | .ok addrs =>
    match firstIPv4 addrs with
    | some addr => .ok addr
    | none => .error (str "no IPv4 address found for " ++ host)

/-! ## The connection (Go standard library, `encoding/binary` and `net.Conn`) -/

/-- Go `binary.Write(conn, binary.BigEndian, req)` for a `*ProxyRequest`: the bytes written,
the fields in declaration order, the `uint16` high byte first. -/
def binaryWrite (req : ProxyRequest) : Bytes :=
  [req.Vn, req.Cd] ++ [req.DstPort / 256 % 256, req.DstPort % 256] ++ req.DstIP ++ req.UserID

/-- Go `binary.Read(conn, binary.BigEndian, &resp)` for a `ProxyResponse`, whose size is 8:
`io.ReadFull` of 8 bytes, then the fields in declaration order. `incoming` is what the peer
sends before the stream ends, `streamErr` how it ends (`none`: closed by the peer, `io.EOF`).
Returns the response and the bytes left unread. -/
def binaryRead (incoming : Bytes) (streamErr : Option Bytes) :
    Except Bytes (ProxyResponse × Bytes) :=
  if 8 ≤ incoming.length then
    .ok ({ Vn := incoming.getD 0 0, Cd := incoming.getD 1 0 }, incoming.drop 8)
  else
    match streamErr with
    | some err => .error err
    | none => if incoming.length = 0 then .error (str "EOF") else .error (str "unexpected EOF")

/-- The error of a `conn.Read`. -/
inductive ReadErr where
  | EOF
  | other (text : Bytes)
  deriving DecidableEq, Repr

/-- Go `conn.Read(buf)` with `len(buf) = size`: between 1 and `size` of the bytes that are
there (`chunk + 1` of them have arrived), or the end of the stream when none is left. -/
def connRead (size : Nat) (incoming : Bytes) (streamErr : Option Bytes) (chunk : Nat) :
    Bytes × Option ReadErr :=
  if incoming.length ≠ 0 then (incoming.take (min size (chunk + 1)), none)
  else
    match streamErr with
    | some err => ([], some (ReadErr.other err))
    | none => ([], some ReadErr.EOF)

/-! ## The process -/

/-- The outcome of `flag.Parse()` on the command line. The flag set is `flag.CommandLine`,
whose error handling is `flag.ExitOnError`: `flag.Parse` returns only when every argument
is accepted; on `-h` or `-help` (not defined by the program) and on an argument it
rejects, it ends the process itself. -/
inductive FlagParse where
  /-- The arguments are accepted; the flags hold their values. -/
  | parsed
  /-- The arguments ask for help: `-h` or `-help`. -/
  | help
  /-- The arguments are rejected with the error `message` (a flag that is not defined, a
  value that is not an integer, a missing value). -/
  | failed (message : Bytes)
  deriving DecidableEq, Repr

/-- What the process is given: the outcome of the parsing of the command line with the
values of the flags, and the answers of the resolver, of the proxy and of the network. -/
structure World where
  /-- `os.Args[0]`. -/
  arg0 : Bytes
  /-- The outcome of `flag.Parse()`. -/
  flagParse : FlagParse
  /-- Flag `-u`. -/
  url : Bytes
  /-- Flag `-i`. -/
  ip : Bytes
  /-- Flag `-p`. -/
  port : Int
  /-- Flag `-v`. -/
  verbose : Bool
  /-- The resolver, `net.LookupHost`. -/
  LookupHost : Bytes → Except Bytes (List Bytes)
  /-- The error of `net.DialTimeout`, `none` (Go `nil`) when the dial succeeds. -/
  dialErr : Option Bytes
  /-- The error of the write of the connect-request. -/
  sendErr : Option Bytes
  /-- The bytes the proxy sends on the connection before the stream ends. -/
  incoming : Bytes
  /-- How the incoming stream ends: `none` when the peer closes, else the read error. -/
  streamErr : Option Bytes
  /-- The error of the write of the HTTP request. -/
  httpSendErr : Option Bytes
  /-- The HTTP read returns at most `chunk + 1` bytes. -/
  chunk : Nat

/-- An effect of the process, named after the call that performs it. -/
inductive Event where
  | stderr (text : Bytes)
  | stdout (text : Bytes)
  | lookupHost (host : Bytes)
  | dial (addr : Bytes)
  | binaryWrite (data : Bytes)
  | binaryRead (size : Nat)
  | connWrite (data : Bytes)
  | connRead (size : Nat)
  | connClose
  deriving DecidableEq, Repr

/-- A finished run: the effects in order and the exit code of the process. -/
structure Run where
  trace : List Event
  exitCode : Nat
  deriving DecidableEq, Repr

/-- Go `os.Exit(code)`: the process ends at once, deferred calls are not run. -/
def osExit (trace : List Event) (_deferred : List Event) (code : Nat) : Run :=
  { trace := trace, exitCode := code }

/-- Return from `main`: the deferred calls run, the last registered first, and the process
ends with code 0. -/
def returnFromMain (trace : List Event) (deferred : List Event) : Run :=
  { trace := trace ++ deferred, exitCode := 0 }

/-- Function `main`, from `// Read SOCKS4 response` to the end, with the value of `host` at that
point, the effects performed so far and the deferred calls. -/
def mainReply (w : World) (host : Bytes) (trace : List Event) (deferred : List Event) : Run :=
  let trace := trace ++ [.binaryRead 8]
  match binaryRead w.incoming w.streamErr with
  | .error err =>
    osExit (trace ++ [.stderr (str "Error reading response: " ++ err ++ str "\n")]) deferred 1
  | .ok (resp, rest) =>
    if resp.Cd ≠ 90 then
      osExit (trace ++ [.stderr (str "Failed to connect: " ++ fmtNat resp.Cd ++ str "\n")])
        deferred 1
    else
      let trace :=
        if w.verbose then
          trace ++ [.stdout (str "Connected through proxy to " ++ host ++ str ":"
            ++ fmtInt w.port ++ str "\n")]
        else trace
      let httpReq := str "HEAD / HTTP/1.1\r\nHost: " ++ host ++ str "\r\n\r\n"
      let trace := trace ++ [.connWrite httpReq]
      match w.httpSendErr with
      | some err =>
        osExit (trace ++ [.stderr (str "Error sending HTTP request: " ++ err ++ str "\n")])
          deferred 1
      | none =>
        let trace := trace ++ [.connRead 4096]
        match connRead 4096 rest w.streamErr w.chunk with
        | (_, some (ReadErr.other err)) =>
          osExit (trace ++ [.stderr (str "Error reading HTTP response: " ++ err
            ++ str "\n")]) deferred 1
        | (data, _) => returnFromMain (trace ++ [.stdout (data ++ str "\n")]) deferred

/-- Function `main`, from `// Create SOCKS4 request` to the write of the request, with the value of
`host` at that point and the effects performed so far. -/
def mainConnect (w : World) (host : Bytes) (trace : List Event) : Run :=
  match CreateRequest host w.port with
  | .error err =>
    osExit (trace ++ [.stderr (str "Error creating request: " ++ err ++ str "\n")]) [] 1
  | .ok req =>
    let proxyAddr := ProxyIP ++ str ":" ++ fmtNat ProxyPort
    let trace := trace ++ [.dial proxyAddr]
    match w.dialErr with
    | some err =>
      osExit (trace ++ [.stderr (str "Error connecting to proxy: " ++ err ++ str "\n")]) [] 1
    | none =>
      let deferred := [Event.connClose]
      let trace := if w.verbose then trace ++ [.stdout (str "Connected to proxy...\n")] else trace
      let trace := trace ++ [.binaryWrite (binaryWrite req)]
      match w.sendErr with
      | some err =>
        osExit (trace ++ [.stderr (str "Error sending request: " ++ err ++ str "\n")]) deferred 1
      | none => mainReply w host trace deferred

/-- Function `main`, from `// Validate arguments` to the resolution of the host, once
`flag.Parse()` has returned. -/
def mainArgs (w : World) : Run :=
  if (w.url = [] ∧ w.ip = []) ∨ w.port = 0 then
    osExit [.stderr (str "Usage: " ++ w.arg0 ++ str " [-u url | -i ip] -p port [-v]\n")] [] 1
  else
    let host := if w.ip ≠ [] then w.ip else w.url
    if ParseIP host = none then
      match ResolveHost w.LookupHost host with
      | .error err =>
        osExit [.lookupHost host, .stderr (str "Error resolving host: " ++ err ++ str "\n")] [] 1
      | .ok resolvedIP => mainConnect w resolvedIP [.lookupHost host]
    else mainConnect w host []

/-- Go `flag.Usage` for the four flags that `main` defines: the header and
`flag.PrintDefaults`, the flags in name order, a default that is the zero value not shown. -/
def flagUsage (arg0 : Bytes) : Bytes :=
  str "Usage of " ++ arg0 ++ str ":\n"
    ++ str "  -i string\n    \tIP address to connect to\n"
    ++ str "  -p int\n    \tPort to connect to\n"
    ++ str "  -u string\n    \tURL to connect to\n"
    ++ str "  -v\tVerbose output\n"

/-- Function `main`: the definition of the flags and `flag.Parse()`, then the rest of the
function. On a request for help `flag.Parse` prints the usage and calls `os.Exit(0)`; on
rejected arguments it prints the error and the usage and calls `os.Exit(2)`. -/
def main (w : World) : Run :=
  match w.flagParse with
  | FlagParse.help => osExit [.stderr (flagUsage w.arg0)] [] 0
  | FlagParse.failed message =>
    osExit [.stderr (message ++ str "\n"), .stderr (flagUsage w.arg0)] [] 2
  | FlagParse.parsed => mainArgs w

/-! ## Vocabulary of the specification -/

/-- The dotted-decimal literal `a.b.c.d`, each octet printed in decimal. -/
def ipv4Literal (a b c d : Nat) : Bytes :=
  fmtNat a ++ 46 :: (fmtNat b ++ 46 :: (fmtNat c ++ 46 :: fmtNat d))

/-- A printable user-id: every byte is a printable ASCII character. -/
def printable (user : Bytes) : Prop := ∀ x ∈ user, 32 ≤ x ∧ x ≤ 126

/-- The fields read back from a connect-request laid out as the specification says. -/
structure DecodedRequest where
  version : Nat
  command : Nat
  port : Nat
  address : Bytes
  userId : Bytes
  /-- What follows the user-id: the null terminator and anything after it. -/
  terminator : Bytes
  deriving DecidableEq, Repr

/-- Decoding of the request layout in the words of the specification: byte 0 is the
version, byte 1 the command, bytes 2-3 the big-endian port, bytes 4-7 the address, and the
remaining bytes up to the first null are the user-id. -/
def decodeRequest (wire : Bytes) : DecodedRequest :=
  { version := wire.getD 0 0
    command := wire.getD 1 0
    port := wire.getD 2 0 * 256 + wire.getD 3 0
    address := (wire.drop 4).take 4
    userId := (wire.drop 8).takeWhile (fun b => b ≠ 0)
    terminator := (wire.drop 8).dropWhile (fun b => b ≠ 0) }

/-- An IPv4 entry of a candidate list: a string that `netip.ParseAddr` reads as an IPv4
address. -/
def isIPv4 (addr : Bytes) : Bool :=
  match ParseAddr addr with
  | some (Addr.v4 _) => true
  | _ => false

/-- An IPv6 entry of a candidate list: a string that `netip.ParseAddr` reads as an IPv6
address, with or without a zone. -/
def isIPv6 (addr : Bytes) : Bool :=
  match ParseAddr addr with
  | some (Addr.v6 _ _) => true
  | _ => false

/-- The state `Tunneled` of the specification: the run went on to the HTTP request on the
connection. -/
def Run.Tunneled (r : Run) : Bool :=
  r.trace.any (fun e => match e with
    | Event.connWrite _ => true
    | _ => false)

/-- The state `Failed` of the specification with `ProxyRejectedError` carrying `code`: the
run ends with exit code 1 on the rejection diagnostic for `code`. -/
def Run.Rejected (r : Run) (code : Nat) : Prop :=
  r.exitCode = 1
    ∧ r.trace.getLast? = some (Event.stderr (str "Failed to connect: " ++ fmtNat code ++ str "\n"))

/-- The run ends with exit code 1 on the read-error diagnostic for `err`. -/
def Run.ReadFailed (r : Run) (err : Bytes) : Prop :=
  r.exitCode = 1
    ∧ r.trace.getLast? = some (Event.stderr (str "Error reading response: " ++ err ++ str "\n"))

/-- The run came to read the reply of the proxy. -/
def Run.ReplyRead (r : Run) : Prop := Event.binaryRead 8 ∈ r.trace

/-- A world in which the run reaches the dial and everything up to the reply succeeds: the
target is the literal `93.184.216.34`, port 80, and the proxy sends `reply`. -/
def replyWorld (reply : Bytes) : World where
  arg0 := str "tormask"
  flagParse := FlagParse.parsed
  url := []
  ip := str "93.184.216.34"
  port := 80
  verbose := false
  LookupHost := fun _ => .error (str "no such host")
  dialErr := none
  sendErr := none
  incoming := reply
  streamErr := none
  httpSendErr := none
  chunk := 4095

/-- The host argument of the command line: `-i` when given, else `-u`. -/
def World.hostArg (w : World) : Bytes := if w.ip ≠ [] then w.ip else w.url

/-- The command line is accepted, the arguments are valid and the target is settled as
`host`: the host argument is an IP literal, and `host` is that literal, or it is not and
resolves to `host`. -/
def World.Resolved (w : World) (host : Bytes) : Prop :=
  w.flagParse = FlagParse.parsed ∧ ¬ ((w.url = [] ∧ w.ip = []) ∨ w.port = 0)
    ∧ ((ParseIP w.hostArg = none ∧ ResolveHost w.LookupHost w.hostArg = .ok host)
      ∨ (ParseIP w.hostArg ≠ none ∧ host = w.hostArg))

/-! ## Theorems -/

/-- Once `flag.Parse()` has returned, `main` is the rest of the function. -/
theorem main_parsed (w : World) (h : w.flagParse = FlagParse.parsed) : main w = mainArgs w := by
  unfold main
  rw [h]

/-! ### Parsing a dotted-decimal literal -/

set_option maxRecDepth 100000 in
theorem fmtNat_octet : ∀ a < 256, fmtNat a =
    (if a < 10 then [48 + a] else if a < 100 then [48 + a / 10, 48 + a % 10]
      else [48 + a / 100, 48 + a / 10 % 10, 48 + a % 10]) := by decide

theorem parseIPv4Fields_digit (c : Nat) (cs : Bytes) (i prev val pos digLen : Nat)
    (fields : Bytes) (hc : 48 ≤ c ∧ c ≤ 57) (hz : ¬ (digLen = 1 ∧ val = 0))
    (hv : val * 10 + (c - 48) ≤ 255) :
    parseIPv4Fields (c :: cs) i prev val pos digLen fields
      = parseIPv4Fields cs (i + 1) c (val * 10 + (c - 48)) pos (digLen + 1) fields := by
  rw [parseIPv4Fields, if_pos hc, if_neg hz]
  simp only [gt_iff_lt]
  rw [if_neg (by omega)]

theorem parseIPv4Fields_dot (cs : Bytes) (i prev val pos digLen : Nat)
    (fields : Bytes) (hcs : cs ≠ []) (hi : i ≠ 0) (hp : prev ≠ 46) (hpos : pos ≠ 3) :
    parseIPv4Fields (46 :: cs) i prev val pos digLen fields
      = parseIPv4Fields cs (i + 1) 46 0 (pos + 1) 0 (fields.set pos (val % 256)) := by
  rw [parseIPv4Fields, if_neg (by omega), if_pos rfl, if_neg (by simp [hi, hp, hcs]),
    if_neg hpos]

theorem parseIPv4Fields_octet (a : Nat) (ha : a < 256) :
    ∃ i' prev' dl, 0 < i' ∧ prev' ≠ 46 ∧ ∀ cs i prev pos fields,
      parseIPv4Fields (fmtNat a ++ cs) i prev 0 pos 0 fields
        = parseIPv4Fields cs (i + i') prev' a pos dl fields := by
  rw [fmtNat_octet a ha]
  split_ifs with h1 h2
  · refine ⟨1, 48 + a, 1, by omega, by omega, ?_⟩
    intro cs i prev pos fields
    rw [List.singleton_append,
      parseIPv4Fields_digit _ _ _ _ _ _ _ _ (by omega) (by omega) (by omega)]
    congr 1; omega
  · refine ⟨2, 48 + a % 10, 2, by omega, by omega, ?_⟩
    intro cs i prev pos fields
    rw [List.cons_append, List.singleton_append,
      parseIPv4Fields_digit _ _ _ _ _ _ _ _ (by omega) (by omega) (by omega),
      parseIPv4Fields_digit _ _ _ _ _ _ _ _ (by omega) (by omega) (by omega)]
    congr 1; omega
  · refine ⟨3, 48 + a % 10, 3, by omega, by omega, ?_⟩
    intro cs i prev pos fields
    rw [List.cons_append, List.cons_append, List.singleton_append,
      parseIPv4Fields_digit _ _ _ _ _ _ _ _ (by omega) (by omega) (by omega),
      parseIPv4Fields_digit _ _ _ _ _ _ _ _ (by omega) (by omega) (by omega),
      parseIPv4Fields_digit _ _ _ _ _ _ _ _ (by omega) (by omega) (by omega)]
    congr 1; omega

theorem fmtNat_octet_cons (a : Nat) (ha : a < 256) :
    ∃ c cs, fmtNat a = c :: cs ∧ (48 ≤ c ∧ c ≤ 57) ∧ ∀ x ∈ cs, 48 ≤ x ∧ x ≤ 57 := by
  rw [fmtNat_octet a ha]
  split_ifs with h1 h2
  · exact ⟨_, _, rfl, by omega, by simp⟩
  · refine ⟨_, _, rfl, by omega, ?_⟩
    simp; omega
  · refine ⟨_, _, rfl, by omega, ?_⟩
    simp; omega

theorem fmtNat_octet_append_ne (a : Nat) (ha : a < 256) (cs : Bytes) :
    fmtNat a ++ cs ≠ [] := by
  obtain ⟨c, t, h, -⟩ := fmtNat_octet_cons a ha
  simp [h]

theorem parseIPv4_ipv4Literal (a b c d : Nat) (ha : a < 256) (hb : b < 256) (hc : c < 256)
    (hd : d < 256) : parseIPv4 (ipv4Literal a b c d) = some [a, b, c, d] := by
  obtain ⟨ia, pa, da, hia, hpa, ea⟩ := parseIPv4Fields_octet a ha
  obtain ⟨ib, pb, db, hib, hpb, eb⟩ := parseIPv4Fields_octet b hb
  obtain ⟨ic, pc, dc, hic, hpc, ec⟩ := parseIPv4Fields_octet c hc
  obtain ⟨id, pd, dd, hid, hpd, ed⟩ := parseIPv4Fields_octet d hd
  have e4 := ed []
  simp only [List.append_nil] at e4
  unfold parseIPv4 ipv4Literal
  rw [ea, parseIPv4Fields_dot _ _ _ _ _ _ _ (fmtNat_octet_append_ne b hb _) (by omega) hpa
      (by omega), eb,
    parseIPv4Fields_dot _ _ _ _ _ _ _ (fmtNat_octet_append_ne c hc _) (by omega) hpb
      (by omega), ec,
    parseIPv4Fields_dot _ _ _ _ _ _ _ (by simpa using fmtNat_octet_append_ne d hd [])
      (by omega) hpc (by omega), e4]
  simp [parseIPv4Fields, Nat.mod_eq_of_lt, ha, hb, hc, hd]

theorem ParseAddrScan_digits (ds : Bytes) (hds : ∀ x ∈ ds, 48 ≤ x ∧ x ≤ 57) (cs s : Bytes) :
    ParseAddrScan (ds ++ 46 :: cs) s = (parseIPv4 s).map Addr.v4 := by
  induction ds with
  | nil => simp [ParseAddrScan]
  | cons x xs ih =>
    have hx := hds x (by simp)
    rw [List.cons_append, ParseAddrScan, if_neg (by omega), if_neg (by omega),
      if_neg (by omega)]
    exact ih (fun y hy => hds y (by simp [hy]))

theorem ParseAddr_ipv4Literal (a b c d : Nat) (ha : a < 256) (hb : b < 256) (hc : c < 256)
    (hd : d < 256) : ParseAddr (ipv4Literal a b c d) = some (Addr.v4 [a, b, c, d]) := by
  obtain ⟨x, xs, hx, hx0, hxs⟩ := fmtNat_octet_cons a ha
  unfold ParseAddr
  conv => lhs; arg 1; unfold ipv4Literal
  rw [ParseAddrScan_digits (fmtNat a) (by
    intro y hy; rw [hx] at hy; rcases List.mem_cons.mp hy with h | h
    · subst h; exact hx0
    · exact hxs y h), parseIPv4_ipv4Literal a b c d ha hb hc hd]
  rfl

theorem ParseIP_ipv4Literal (a b c d : Nat) (ha : a < 256) (hb : b < 256) (hc : c < 256)
    (hd : d < 256) : ParseIP (ipv4Literal a b c d) = some (v4InV6Prefix ++ [a, b, c, d]) := by
  simp [ParseIP, ParseAddr_ipv4Literal a b c d ha hb hc hd]

/-- On a dotted-decimal literal `CreateRequestWith` succeeds, whatever the port and the
user-id: the address is the four octets, the port is reduced modulo `2^16`, and the
user-id is copied into the 8-byte block. -/
theorem CreateRequestWith_ipv4Literal (user : Bytes) (a b c d : Nat) (port : Int)
    (ha : a < 256) (hb : b < 256) (hc : c < 256) (hd : d < 256) :
    CreateRequestWith user (ipv4Literal a b c d) port
      = .ok { Vn := 4, Cd := 1, DstPort := (port % 65536).toNat, DstIP := [a, b, c, d],
              UserID := copy [0, 0, 0, 0, 0, 0, 0, 0] user } := by
  simp [CreateRequestWith, ParseIP_ipv4Literal a b c d ha hb hc hd, To4, v4InV6Prefix, copy]

/-! ### The connect-request -/

theorem copy_length (dst src : Bytes) : (copy dst src).length = dst.length := by
  simp [copy]; omega

theorem CreateRequestWith_ok (user dstip : Bytes) (port : Int) (req : ProxyRequest)
    (h : CreateRequestWith user dstip port = .ok req) :
    req.Vn = 4 ∧ req.Cd = 1 ∧ req.DstPort = (port % 65536).toNat ∧ req.DstIP.length = 4
      ∧ req.UserID = copy [0, 0, 0, 0, 0, 0, 0, 0] user := by
  unfold CreateRequestWith at h
  split at h
  · cases h
  · dsimp only at h
    split at h
    · cases h
    · rename_i dstIP hd
      injection h with h
      subst h
      refine ⟨rfl, rfl, rfl, ?_, rfl⟩
      split at hd
      · injection hd with hd; subst hd; exact copy_length _ _
      · split at hd
        · injection hd with hd; subst hd; exact copy_length _ _
        · cases hd

theorem port_toNat (p : Nat) (hp : p < 65536) : ((p : Int) % 65536).toNat = p := by omega

/-- C1: for every IPv4 literal `a.b.c.d` with octets in 0..255 and every port `p` in
0..65535, the request that `CreateRequest` builds is serialised by `binary.Write` as the
bytes `4, 1, p / 256, p % 256, a, b, c, d`, then the user-id `tormask`, then one null
byte: 16 bytes in all. -/
theorem connect_request_bytes (a b c d p : Nat) (ha : a < 256) (hb : b < 256) (hc : c < 256)
    (hd : d < 256) (hp : p < 65536) :
    (CreateRequest (ipv4Literal a b c d) (p : Int)).map binaryWrite
        = .ok ([4, 1, p / 256, p % 256, a, b, c, d] ++ str "tormask" ++ [0])
      ∧ ([4, 1, p / 256, p % 256, a, b, c, d] ++ str "tormask" ++ [0]).length = 16 := by
  refine ⟨?_, by simp [str]⟩
  rw [CreateRequest, CreateRequestWith_ipv4Literal User a b c d p ha hb hc hd, port_toNat p hp]
  have h1 : p / 256 % 256 = p / 256 := Nat.mod_eq_of_lt (by omega)
  simp [Except.map, binaryWrite, h1, User, str, copy]

/-- Witness of C1: the literal `93.184.216.34` with port 80. -/
theorem connect_request_bytes_witness :
    ipv4Literal 93 184 216 34 = str "93.184.216.34"
      ∧ (CreateRequest (ipv4Literal 93 184 216 34) 80).map binaryWrite
        = .ok ([4, 1, 0, 80, 93, 184, 216, 34] ++ str "tormask" ++ [0])
      ∧ ([4, 1, 0, 80, 93, 184, 216, 34] ++ str "tormask" ++ [0]).length = 16 :=
  ⟨by decide, connect_request_bytes 93 184 216 34 80 (by decide) (by decide) (by decide)
    (by decide) (by decide)⟩

/-- C10: for every integer port argument and every IPv4 literal, `CreateRequest` succeeds
and stores the port reduced modulo `2^16`; the two port bytes on the wire are its big-endian
encoding; the stored port is the argument only when the argument is in 0..65535; and a run
of `main` whose command line is accepted with such a literal and any non-zero port, once
connected, writes a request with those port bytes. -/
theorem port_truncation (a b c d : Nat) (port : Int) (ha : a < 256) (hb : b < 256)
    (hc : c < 256) (hd : d < 256) :
    ∃ req, CreateRequest (ipv4Literal a b c d) port = .ok req
      ∧ (req.DstPort : Int) = port % 2 ^ 16
      ∧ (binaryWrite req).take 4 = [4, 1, req.DstPort / 256, req.DstPort % 256]
      ∧ (binaryWrite req).getD 2 0 * 256 + (binaryWrite req).getD 3 0 = req.DstPort
      ∧ ((req.DstPort : Int) = port ↔ 0 ≤ port ∧ port ≤ 65535)
      ∧ ∀ w : World, w.flagParse = FlagParse.parsed → w.ip = ipv4Literal a b c d →
          w.port = port → port ≠ 0 → w.dialErr = none →
          Event.binaryWrite (binaryWrite req) ∈ (main w).trace := by
  refine ⟨_, CreateRequestWith_ipv4Literal User a b c d port ha hb hc hd, ?_, ?_, ?_, ?_, ?_⟩
  · simp only []
    omega
  · have h1 : (port % 65536).toNat / 256 % 256 = (port % 65536).toNat / 256 :=
      Nat.mod_eq_of_lt (by omega)
    simp [binaryWrite, h1]
  · have h1 : (port % 65536).toNat / 256 % 256 = (port % 65536).toNat / 256 :=
      Nat.mod_eq_of_lt (by omega)
    simp only [binaryWrite, List.cons_append, List.nil_append, List.getD_cons_succ,
      List.getD_cons_zero, h1]
    omega
  · simp only []
    omega
  · intro w hflag hip hport hne hdial
    have hlit : ipv4Literal a b c d ≠ [] := fmtNat_octet_append_ne a ha _
    have hcr := CreateRequestWith_ipv4Literal User a b c d port ha hb hc hd
    have hparse := ParseIP_ipv4Literal a b c d ha hb hc hd
    rw [main_parsed w hflag]
    unfold mainArgs
    rw [if_neg (by rw [hip, hport]; simp [hlit, hne])]
    simp only [hip, hlit, ne_eq, not_false_eq_true, if_true, hparse]
    rw [if_neg (by simp)]
    unfold mainConnect
    rw [CreateRequest, hport, hcr]
    simp only [hdial]
    unfold mainReply
    repeat' split
    all_goals simp [osExit, returnFromMain]

/-- Witness of C10: port 65616 with the literal `93.184.216.34` is stored as port 80; and
the ports 65536 and -1 are stored as 0 and 65535. -/
theorem port_truncation_witness :
    (∃ req, CreateRequest (ipv4Literal 93 184 216 34) 65616 = .ok req
      ∧ (req.DstPort : Int) = 65616 % 2 ^ 16
      ∧ (binaryWrite req).take 4 = [4, 1, req.DstPort / 256, req.DstPort % 256]
      ∧ (binaryWrite req).getD 2 0 * 256 + (binaryWrite req).getD 3 0 = req.DstPort
      ∧ ((req.DstPort : Int) = 65616 ↔ (0 : Int) ≤ 65616 ∧ (65616 : Int) ≤ 65535)
      ∧ ∀ w : World, w.flagParse = FlagParse.parsed → w.ip = ipv4Literal 93 184 216 34 →
          w.port = 65616 → (65616 : Int) ≠ 0 → w.dialErr = none →
          Event.binaryWrite (binaryWrite req) ∈ (main w).trace)
      ∧ (CreateRequest (str "93.184.216.34") 65616).map ProxyRequest.DstPort = .ok 80
      ∧ (CreateRequest (str "93.184.216.34") 65536).map ProxyRequest.DstPort = .ok 0
      ∧ (CreateRequest (str "93.184.216.34") (-1)).map ProxyRequest.DstPort = .ok 65535 :=
  ⟨port_truncation 93 184 216 34 65616 (by decide) (by decide) (by decide) (by decide),
    by decide, by decide, by decide⟩

/-! ### The user-id block -/

theorem binaryWrite_length (req : ProxyRequest) (h4 : req.DstIP.length = 4)
    (h8 : req.UserID.length = 8) : (binaryWrite req).length = 16 := by
  simp [binaryWrite, h4, h8]

theorem binaryWrite_drop (req : ProxyRequest) (h4 : req.DstIP.length = 4) :
    (binaryWrite req).drop 8 = req.UserID := by
  have : req.DstIP ++ req.UserID = req.DstIP ++ req.UserID := rfl
  simp only [binaryWrite, List.cons_append, List.nil_append, List.drop_succ_cons]
  rw [List.drop_append_of_le_length (by omega), List.drop_of_length_le (by omega)]
  rfl

theorem copy_block (user : Bytes) :
    copy [0, 0, 0, 0, 0, 0, 0, 0] user = user.take 8 ++ List.replicate (8 - user.length) 0 := by
  unfold copy
  congr 1
  rcases user with _ | ⟨u0, _ | ⟨u1, _ | ⟨u2, _ | ⟨u3, _ | ⟨u4, _ | ⟨u5, _ | ⟨u6, _ | ⟨u7, t⟩⟩⟩⟩⟩⟩⟩⟩
    <;> simp [List.replicate]

/-- C2, as the code has it: for a user-id of any length n, the encoded connect-request is
always 16 bytes long, and its tail after the 8 fixed bytes is the fixed 8-byte block, the
first min(n, 8) bytes of the user-id padded with zero bytes to length 8. The tail is the
complete user-id followed by exactly one null byte, and the length is 8 + n + 1, exactly
when n = 7, as it is for the program's constant `tormask`. -/
theorem userid_block (user dstip : Bytes) (port : Int) (req : ProxyRequest)
    (h : CreateRequestWith user dstip port = .ok req) :
    (binaryWrite req).length = 16
      ∧ (binaryWrite req).drop 8 = user.take 8 ++ List.replicate (8 - user.length) 0
      ∧ ((binaryWrite req).drop 8 = user ++ [0] ↔ user.length = 7)
      ∧ ((binaryWrite req).length = 8 + user.length + 1 ↔ user.length = 7)
      ∧ (user = User → (binaryWrite req).drop 8 = str "tormask" ++ [0]) := by
  obtain ⟨-, -, -, h4, hu⟩ := CreateRequestWith_ok user dstip port req h
  have h8 : req.UserID.length = 8 := by rw [hu, copy_length]; rfl
  have hlen := binaryWrite_length req h4 h8
  have hdrop : (binaryWrite req).drop 8 = user.take 8 ++ List.replicate (8 - user.length) 0 := by
    rw [binaryWrite_drop req h4, hu, copy_block]
  refine ⟨hlen, hdrop, ?_, ?_, ?_⟩
  · constructor
    · intro he
      have := congrArg List.length he
      rw [binaryWrite_drop req h4, h8] at this
      simp at this
      omega
    · intro h7
      rw [hdrop, List.take_of_length_le (by omega), h7]
      rfl
  · rw [hlen]; omega
  · intro hU
    rw [hdrop, hU]
    decide

/-- Witness of C2 as amended: the request for `93.184.216.34`, port 80, user-id
`tormask`. -/
theorem userid_block_witness :
    (binaryWrite ⟨4, 1, 80, [93, 184, 216, 34], str "tormask" ++ [0]⟩).length = 16
      ∧ (binaryWrite ⟨4, 1, 80, [93, 184, 216, 34], str "tormask" ++ [0]⟩).drop 8
        = (str "tormask").take 8 ++ List.replicate (8 - (str "tormask").length) 0
      ∧ ((binaryWrite ⟨4, 1, 80, [93, 184, 216, 34], str "tormask" ++ [0]⟩).drop 8
        = str "tormask" ++ [0] ↔ (str "tormask").length = 7)
      ∧ ((binaryWrite ⟨4, 1, 80, [93, 184, 216, 34], str "tormask" ++ [0]⟩).length
        = 8 + (str "tormask").length + 1 ↔ (str "tormask").length = 7)
      ∧ (str "tormask" = User
        → (binaryWrite ⟨4, 1, 80, [93, 184, 216, 34], str "tormask" ++ [0]⟩).drop 8
          = str "tormask" ++ [0]) :=
  userid_block (str "tormask") (str "93.184.216.34") 80
    ⟨4, 1, 80, [93, 184, 216, 34], str "tormask" ++ [0]⟩ (by decide)

/-- C2 as stated fails: with the three-byte user-id `abc` the request is 16 bytes long,
not 8 + 3 + 1 = 12, and its tail is `abc` followed by five null bytes, not by one; with the
ten-byte user-id `identifier` the tail is the truncated `identifi` and no null byte. -/
theorem userid_not_variable_length :
    (CreateRequestWith (str "abc") (str "93.184.216.34") 80).map binaryWrite
        = .ok [4, 1, 0, 80, 93, 184, 216, 34, 97, 98, 99, 0, 0, 0, 0, 0]
      ∧ ([4, 1, 0, 80, 93, 184, 216, 34, 97, 98, 99, 0, 0, 0, 0, 0] : Bytes).length
        ≠ 8 + (str "abc").length + 1
      ∧ ([4, 1, 0, 80, 93, 184, 216, 34, 97, 98, 99, 0, 0, 0, 0, 0] : Bytes).drop 8
        ≠ str "abc" ++ [0]
      ∧ (CreateRequestWith (str "identifier") (str "93.184.216.34") 80).map
          (fun req => (binaryWrite req).drop 8) = .ok (str "identifi") := by
  decide

/-! ### Round trip -/

theorem takeWhile_nonzero_append (user : Bytes) (k : Nat) (h0 : ∀ x ∈ user, x ≠ 0) :
    (user ++ List.replicate (k + 1) 0).takeWhile (fun b => b ≠ 0) = user
      ∧ (user ++ List.replicate (k + 1) 0).dropWhile (fun b => b ≠ 0)
        = List.replicate (k + 1) 0 := by
  induction user with
  | nil => simp [List.replicate, List.takeWhile, List.dropWhile]
  | cons x xs ih =>
    have hx : x ≠ 0 := h0 x (by simp)
    have ih := ih (fun y hy => h0 y (by simp [hy]))
    simp only [ne_eq, decide_not] at ih
    simp [List.takeWhile, List.dropWhile, hx, ih.1, ih.2]

theorem printable_ne_zero (user : Bytes) (h : printable user) : ∀ x ∈ user, x ≠ 0 := by
  intro x hx
  have := h x hx
  omega

/-- C3, as the code has it: for every IPv4 literal, every 16-bit port and every user-id,
decoding the bytes produced by the encoder recovers version 4, command 1, the same port and
the same address bytes; for a printable user-id of at most 7 bytes the bytes up to the first
null are the user-id, with no null inside, followed by 8 - n null bytes, exactly one when
n = 7 as for `tormask`; and two requests that differ in address or port never encode to the
same bytes. -/
theorem request_round_trip (user : Bytes) (a b c d p : Nat) (ha : a < 256) (hb : b < 256)
    (hc : c < 256) (hd : d < 256) (hp : p < 65536) :
    ∃ req, CreateRequestWith user (ipv4Literal a b c d) (p : Int) = .ok req
      ∧ (decodeRequest (binaryWrite req)).version = 4
      ∧ (decodeRequest (binaryWrite req)).command = 1
      ∧ (decodeRequest (binaryWrite req)).port = p
      ∧ (decodeRequest (binaryWrite req)).address = [a, b, c, d]
      ∧ (printable user → user.length ≤ 7 →
          (decodeRequest (binaryWrite req)).userId = user
          ∧ 0 ∉ (decodeRequest (binaryWrite req)).userId
          ∧ (decodeRequest (binaryWrite req)).terminator
            = List.replicate (8 - user.length) 0)
      ∧ (printable user → user.length = 7 →
          (decodeRequest (binaryWrite req)).terminator = [0])
      ∧ ∀ (user' : Bytes) (a' b' c' d' p' : Nat) (req' : ProxyRequest),
          a' < 256 → b' < 256 → c' < 256 → d' < 256 → p' < 65536 →
          CreateRequestWith user' (ipv4Literal a' b' c' d') (p' : Int) = .ok req' →
          binaryWrite req = binaryWrite req' →
          a = a' ∧ b = b' ∧ c = c' ∧ d = d' ∧ p = p' := by
  have hcr := CreateRequestWith_ipv4Literal user a b c d p ha hb hc hd
  rw [port_toNat p hp] at hcr
  have h1 : p / 256 % 256 = p / 256 := Nat.mod_eq_of_lt (by omega)
  have hterm : ∀ n, n ≤ 7 → ∃ k, 8 - n = k + 1 := fun n hn => ⟨7 - n, by omega⟩
  have hdec : printable user → user.length ≤ 7 →
      (copy [0, 0, 0, 0, 0, 0, 0, 0] user).takeWhile (fun b => b ≠ 0) = user
      ∧ (copy [0, 0, 0, 0, 0, 0, 0, 0] user).dropWhile (fun b => b ≠ 0)
        = List.replicate (8 - user.length) 0 := by
    intro hpr hlen
    obtain ⟨k, hk⟩ := hterm user.length hlen
    rw [copy_block, List.take_of_length_le (by omega), hk]
    exact takeWhile_nonzero_append user k (printable_ne_zero user hpr)
  refine ⟨_, hcr, ?_, ?_, ?_, ?_, ?_, ?_, ?_⟩
  · simp [decodeRequest, binaryWrite]
  · simp [decodeRequest, binaryWrite]
  · simp only [decodeRequest, binaryWrite, List.cons_append, List.nil_append,
      List.getD_cons_succ, List.getD_cons_zero, h1]
    omega
  · simp [decodeRequest, binaryWrite]
  · intro hpr hlen
    have := hdec hpr hlen
    simp only [decodeRequest, binaryWrite, List.cons_append, List.nil_append,
      List.drop_succ_cons, List.drop_zero]
    refine ⟨this.1, ?_, this.2⟩
    rw [this.1]
    intro h0
    exact printable_ne_zero user hpr 0 h0 rfl
  · intro hpr hlen
    have := (hdec hpr (by omega)).2
    simp only [decodeRequest, binaryWrite, List.cons_append, List.nil_append,
      List.drop_succ_cons, List.drop_zero]
    rw [this, hlen]
    rfl
  · intro user' a' b' c' d' p' req' ha' hb' hc' hd' hp' hcr' hw
    rw [CreateRequestWith_ipv4Literal user' a' b' c' d' p' ha' hb' hc' hd',
      port_toNat p' hp'] at hcr'
    injection hcr' with hcr'
    subst hcr'
    have h1' : p' / 256 % 256 = p' / 256 := Nat.mod_eq_of_lt (by omega)
    simp only [binaryWrite, List.cons_append, List.nil_append, List.cons.injEq, h1, h1',
      true_and] at hw
    obtain ⟨e1, e2, e3, e4, e5, e6, -⟩ := hw
    exact ⟨e3, e4, e5, e6, by omega⟩

/-- Witness of C3 as amended: `93.184.216.34`, port 80, user-id `tormask`. -/
theorem request_round_trip_witness :
    decodeRequest [4, 1, 0, 80, 93, 184, 216, 34, 116, 111, 114, 109, 97, 115, 107, 0]
        = ⟨4, 1, 80, [93, 184, 216, 34], str "tormask", [0]⟩
      ∧ ∃ req, CreateRequestWith (str "tormask") (ipv4Literal 93 184 216 34) 80 = .ok req
      ∧ (decodeRequest (binaryWrite req)).version = 4
      ∧ (decodeRequest (binaryWrite req)).command = 1
      ∧ (decodeRequest (binaryWrite req)).port = 80
      ∧ (decodeRequest (binaryWrite req)).address = [93, 184, 216, 34]
      ∧ (printable (str "tormask") → (str "tormask").length ≤ 7 →
          (decodeRequest (binaryWrite req)).userId = str "tormask"
          ∧ 0 ∉ (decodeRequest (binaryWrite req)).userId
          ∧ (decodeRequest (binaryWrite req)).terminator
            = List.replicate (8 - (str "tormask").length) 0)
      ∧ (printable (str "tormask") → (str "tormask").length = 7 →
          (decodeRequest (binaryWrite req)).terminator = [0])
      ∧ ∀ (user' : Bytes) (a' b' c' d' p' : Nat) (req' : ProxyRequest),
          a' < 256 → b' < 256 → c' < 256 → d' < 256 → p' < 65536 →
          CreateRequestWith user' (ipv4Literal a' b' c' d') (p' : Int) = .ok req' →
          binaryWrite req = binaryWrite req' →
          93 = a' ∧ 184 = b' ∧ 216 = c' ∧ 34 = d' ∧ 80 = p' :=
  ⟨by decide, request_round_trip (str "tormask") 93 184 216 34 80 (by decide) (by decide)
    (by decide) (by decide) (by decide)⟩

/-- C3 as stated fails: with the printable eight-byte user-id `tormasks` the encoded
request carries no null byte after the user-id, and with the printable user-id
`tormask-client` the bytes up to the first null are the truncated `tormask-`. -/
theorem round_trip_fails_long_userid :
    printable (str "tormasks") ∧ printable (str "tormask-client")
      ∧ (CreateRequestWith (str "tormasks") (str "93.184.216.34") 80).map
          (fun req => (decodeRequest (binaryWrite req)).terminator) = .ok []
      ∧ (CreateRequestWith (str "tormask-client") (str "93.184.216.34") 80).map
          (fun req => (decodeRequest (binaryWrite req)).userId) = .ok (str "tormask-")
      ∧ str "tormask-" ≠ str "tormask-client" := by
  refine ⟨?_, ?_, by decide, by decide, by decide⟩
  · unfold printable; decide
  · unfold printable; decide

/-! ### Invalid addresses -/

/-- C7 fails on the code: the IPv6 literal `2606:2800:220:1::1` parses to its 16 bytes, which
`To4` rejects, and `CreateRequest` still returns a request, whose address is the first four
bytes `26 06 28 00` of the IPv6 address. -/
theorem ipv6_literal_truncated :
    ParseIP (str "2606:2800:220:1::1")
        = some [0x26, 0x06, 0x28, 0x00, 0x02, 0x20, 0x00, 0x01, 0, 0, 0, 0, 0, 0, 0, 1]
      ∧ To4 [0x26, 0x06, 0x28, 0x00, 0x02, 0x20, 0x00, 0x01, 0, 0, 0, 0, 0, 0, 0, 1] = none
      ∧ CreateRequest (str "2606:2800:220:1::1") 80
        = .ok { Vn := 4, Cd := 1, DstPort := 80, DstIP := [38, 6, 40, 0],
                UserID := str "tormask" ++ [0] } := by
  decide

/-! ### Resolver selection -/

theorem stringsContains_colon (s : Bytes) : stringsContains s (str ":") = true ↔ 58 ∈ s := by
  induction s with
  | nil => simp [stringsContains, str]
  | cons c cs ih =>
    rw [stringsContains, Bool.or_eq_true, ih]
    have : (str ":").isPrefixOf (c :: cs) = true ↔ 58 = c := by
      simp [str, List.isPrefixOf]
    rw [this, List.mem_cons]

theorem parseIPv4Fields_no_colon (s : Bytes) :
    ∀ (i prev val pos digLen : Nat) (fields o : Bytes),
      parseIPv4Fields s i prev val pos digLen fields = some o → 58 ∉ s := by
  induction s with
  | nil => intro _ _ _ _ _ _ _ _; simp
  | cons c cs ih =>
    intro i prev val pos digLen fields o h
    rw [parseIPv4Fields] at h
    dsimp only at h
    split_ifs at h with h1 h2 h3 h4 h5 h6
    · have := ih _ _ _ _ _ _ _ h
      simp only [List.mem_cons, not_or]
      exact ⟨by omega, this⟩
    · have := ih _ _ _ _ _ _ _ h
      simp only [List.mem_cons, not_or]
      exact ⟨by omega, this⟩

theorem ParseAddrScan_v4 (rest s o : Bytes) (h : ParseAddrScan rest s = some (Addr.v4 o)) :
    parseIPv4 s = some o := by
  induction rest with
  | nil => simp [ParseAddrScan] at h
  | cons c cs ih =>
    rw [ParseAddrScan] at h
    split_ifs at h with h1 h2 h3
    · cases hp : parseIPv4 s with
      | none => simp [hp] at h
      | some o' => simp [hp] at h; rw [h]
    · cases hp : parseIPv6 s with
      | none => simp [hp] at h
      | some r => simp [hp] at h
    · exact ih h

theorem ParseAddrScan_v6 (rest s b z : Bytes) (h : ParseAddrScan rest s = some (Addr.v6 b z)) :
    58 ∈ rest := by
  induction rest with
  | nil => simp [ParseAddrScan] at h
  | cons c cs ih =>
    rw [ParseAddrScan] at h
    split_ifs at h with h1 h2 h3
    · cases hp : parseIPv4 s with
      | none => simp [hp] at h
      | some o' => simp [hp] at h
    · simp [h2]
    · exact List.mem_cons_of_mem _ (ih h)

theorem isIPv4_no_colon (addr : Bytes) (h : isIPv4 addr = true) : 58 ∉ addr := by
  unfold isIPv4 at h
  split at h
  · rename_i o ho
    exact parseIPv4Fields_no_colon addr _ _ _ _ _ _ _ (ParseAddrScan_v4 addr addr o ho)
  · cases h

theorem isIPv6_colon (addr : Bytes) (h : isIPv6 addr = true) : 58 ∈ addr := by
  unfold isIPv6 at h
  split at h
  · rename_i b z hb
    exact ParseAddrScan_v6 addr addr b z hb
  · cases h

theorem isIPv4_not_isIPv6 (addr : Bytes) (h : isIPv4 addr = true) : isIPv6 addr = false := by
  cases h6 : isIPv6 addr with
  | false => rfl
  | true => exact absurd (isIPv6_colon addr h6) (isIPv4_no_colon addr h)

theorem firstIPv4_none (addrs : List Bytes) :
    firstIPv4 addrs = none ↔ ∀ x ∈ addrs, 58 ∈ x := by
  induction addrs with
  | nil => simp [firstIPv4]
  | cons x xs ih =>
    rw [firstIPv4]
    by_cases hx : stringsContains x (str ":") = true
    · rw [if_pos hx, ih]
      simp [(stringsContains_colon x).mp hx]
    · rw [if_neg hx]
      have : 58 ∉ x := fun h => hx ((stringsContains_colon x).mpr h)
      simp [this]

theorem firstIPv4_some (addrs : List Bytes) (r : Bytes) :
    firstIPv4 addrs = some r ↔
      ∃ pre post, addrs = pre ++ r :: post ∧ (∀ y ∈ pre, 58 ∈ y) ∧ 58 ∉ r := by
  induction addrs with
  | nil => simp [firstIPv4]
  | cons x xs ih =>
    rw [firstIPv4]
    by_cases hx : stringsContains x (str ":") = true
    · have hx' := (stringsContains_colon x).mp hx
      rw [if_pos hx, ih]
      constructor
      · rintro ⟨pre, post, rfl, hpre, hr⟩
        exact ⟨x :: pre, post, rfl, by simpa [hx'] using hpre, hr⟩
      · rintro ⟨pre, post, he, hpre, hr⟩
        rcases pre with _ | ⟨p, pre⟩
        · simp at he
          exact absurd (he.1 ▸ hx') hr
        · simp at he
          exact ⟨pre, post, he.2, fun y hy => hpre y (by simp [hy]), hr⟩
    · have hx' : 58 ∉ x := fun h => hx ((stringsContains_colon x).mpr h)
      rw [if_neg hx]
      constructor
      · intro h
        injection h with h
        subst h
        exact ⟨[], xs, rfl, by simp, hx'⟩
      · rintro ⟨pre, post, he, hpre, hr⟩
        rcases pre with _ | ⟨p, pre⟩
        · simp at he
          rw [he.1]
        · simp at he
          exact absurd (hpre p (by simp)) (he.1 ▸ hx')

/-- C4: when the lookup succeeds with a list of IPv4 and IPv6 addresses, `ResolveHost`
returns the first IPv4 entry in list order, skipping the IPv6 entries before it; it fails
with the no-IPv4 error exactly when no entry is IPv4; and what it returns is an entry of
the list that is IPv4 and not IPv6. -/
theorem resolver_selection (LookupHost : Bytes → Except Bytes (List Bytes))
    (host : Bytes) (addrs : List Bytes) (hlook : LookupHost host = .ok addrs)
    (hwf : ∀ x ∈ addrs, isIPv4 x = true ∨ isIPv6 x = true) :
    (∀ pre x post, addrs = pre ++ x :: post → (∀ y ∈ pre, isIPv4 y = false) →
        isIPv4 x = true → ResolveHost LookupHost host = .ok x)
      ∧ (ResolveHost LookupHost host = .error (str "no IPv4 address found for " ++ host)
          ↔ ∀ x ∈ addrs, isIPv4 x = false)
      ∧ (∀ r, ResolveHost LookupHost host = .ok r →
          r ∈ addrs ∧ isIPv4 r = true ∧ isIPv6 r = false)
      ∧ ((∃ r, ResolveHost LookupHost host = .ok r)
          ∨ ResolveHost LookupHost host
            = .error (str "no IPv4 address found for " ++ host)) := by
  have hcolon : ∀ x ∈ addrs, isIPv4 x = false → 58 ∈ x := by
    intro x hx h4
    rcases hwf x hx with h | h
    · rw [h] at h4; cases h4
    · exact isIPv6_colon x h
  have hres : ResolveHost LookupHost host
      = match firstIPv4 addrs with
        | some addr => .ok addr
        | none => .error (str "no IPv4 address found for " ++ host) := by
    simp only [ResolveHost, hlook]
  refine ⟨?_, ?_, ?_, ?_⟩
  · intro pre x post he hpre hx
    have hf : firstIPv4 addrs = some x :=
      (firstIPv4_some addrs x).mpr ⟨pre, post, he,
        fun y hy => hcolon y (by rw [he]; simp [hy]) (hpre y hy), isIPv4_no_colon x hx⟩
    rw [hres, hf]
  · constructor
    · intro herr x hx
      cases hf : firstIPv4 addrs with
      | some r => rw [hres, hf] at herr; cases herr
      | none =>
        have h58 := (firstIPv4_none addrs).mp hf x hx
        cases h4 : isIPv4 x with
        | false => rfl
        | true => exact absurd h58 (isIPv4_no_colon x h4)
    · intro hall
      have hf : firstIPv4 addrs = none :=
        (firstIPv4_none addrs).mpr (fun x hx => hcolon x hx (hall x hx))
      rw [hres, hf]
  · intro r hr
    cases hf : firstIPv4 addrs with
    | none => rw [hres, hf] at hr; cases hr
    | some r' =>
      rw [hres, hf] at hr
      injection hr with hr
      subst hr
      obtain ⟨pre, post, he, -, h58⟩ := (firstIPv4_some addrs r').mp hf
      have hmem : r' ∈ addrs := by rw [he]; simp
      have h4 : isIPv4 r' = true := by
        rcases hwf r' hmem with h | h
        · exact h
        · exact absurd (isIPv6_colon r' h) h58
      exact ⟨hmem, h4, isIPv4_not_isIPv6 r' h4⟩
  · cases hf : firstIPv4 addrs with
    | none => right; rw [hres, hf]
    | some r => left; exact ⟨r, by rw [hres, hf]⟩

/-- Witness of C4: a lookup that yields an IPv6 address and then `93.184.216.34`. -/
theorem resolver_selection_witness :
    (∀ x ∈ [str "2606:2800:220:1:248:1893:25c8:1946", str "93.184.216.34"],
        isIPv4 x = true ∨ isIPv6 x = true)
      ∧ ResolveHost
          (fun _ => .ok [str "2606:2800:220:1:248:1893:25c8:1946", str "93.184.216.34"])
          (str "example.com") = .ok (str "93.184.216.34") :=
  ⟨by decide,
    (resolver_selection
      (fun _ => .ok [str "2606:2800:220:1:248:1893:25c8:1946", str "93.184.216.34"])
      (str "example.com") [str "2606:2800:220:1:248:1893:25c8:1946", str "93.184.216.34"]
      rfl (by decide)).1
      [str "2606:2800:220:1:248:1893:25c8:1946"] (str "93.184.216.34") [] rfl (by decide)
      (by decide)⟩

/-! ### The run of the process -/

theorem World.incoming_eta (w : World) : { w with incoming := w.incoming } = w := by
  cases w; rfl

theorem mainConnect_of_ReplyRead (w : World) (host : Bytes) (tr : List Event)
    (htr : ∀ e ∈ tr, ∃ h, e = Event.lookupHost h)
    (h : Event.binaryRead 8 ∈ (mainConnect w host tr).trace) :
    ∃ tr', (∀ data, Event.connWrite data ∉ tr') ∧ w.dialErr = none ∧ w.sendErr = none
      ∧ ∀ inc, mainConnect { w with incoming := inc } host tr
          = mainReply { w with incoming := inc } host tr' [Event.connClose] := by
  have hno : Event.binaryRead 8 ∉ tr := fun hm => by
    obtain ⟨x, hx⟩ := htr _ hm; cases hx
  have hnw : ∀ data, Event.connWrite data ∉ tr := fun data hm => by
    obtain ⟨x, hx⟩ := htr _ hm; cases hx
  unfold mainConnect at h
  rcases hreq : CreateRequest host w.port with err | req
  · simp [hreq, osExit, hno] at h
  · rcases Option.eq_none_or_eq_some w.dialErr with hdial | ⟨err, hdial⟩
    · rcases Option.eq_none_or_eq_some w.sendErr with hsend | ⟨err, hsend⟩
      · refine ⟨(if w.verbose then
            tr ++ [Event.dial (ProxyIP ++ str ":" ++ fmtNat ProxyPort)]
              ++ [Event.stdout (str "Connected to proxy...\n")]
          else tr ++ [Event.dial (ProxyIP ++ str ":" ++ fmtNat ProxyPort)])
          ++ [Event.binaryWrite (binaryWrite req)], ?_, hdial, hsend, ?_⟩
        · intro data
          split <;> simp [hnw]
        · intro inc
          unfold mainConnect
          dsimp only
          rw [hreq]
          dsimp only
          rw [hdial]
          dsimp only
          rw [hsend]
      · simp only [hreq, hdial, hsend, osExit] at h
        split at h <;> simp [hno] at h
    · simp [hreq, hdial, osExit, hno] at h

theorem mainArgs_of_ReplyRead (w : World) (h : (mainArgs w).ReplyRead) :
    ∃ host tr, (∀ data, Event.connWrite data ∉ tr) ∧ w.dialErr = none ∧ w.sendErr = none
      ∧ ∀ inc, mainArgs { w with incoming := inc }
          = mainReply { w with incoming := inc } host tr [Event.connClose] := by
  unfold Run.ReplyRead mainArgs at h
  by_cases h1 : (w.url = [] ∧ w.ip = []) ∨ w.port = 0
  · rw [if_pos h1] at h
    simp [osExit] at h
  · rw [if_neg h1] at h
    dsimp only at h
    by_cases h2 : ParseIP (if w.ip ≠ [] then w.ip else w.url) = none
    · rw [if_pos h2] at h
      rcases hres : ResolveHost w.LookupHost (if w.ip ≠ [] then w.ip else w.url)
        with err | resolvedIP
      · rw [hres] at h
        simp [osExit] at h
      · rw [hres] at h
        obtain ⟨tr', hw, hd, hs, h'⟩ := mainConnect_of_ReplyRead w resolvedIP _ (by simp) h
        refine ⟨resolvedIP, tr', hw, hd, hs, fun inc => ?_⟩
        unfold mainArgs
        dsimp only
        rw [if_neg h1, if_pos h2, hres]
        exact h' inc
    · rw [if_neg h2] at h
      obtain ⟨tr', hw, hd, hs, h'⟩ := mainConnect_of_ReplyRead w _ [] (by simp) h
      refine ⟨if w.ip ≠ [] then w.ip else w.url, tr', hw, hd, hs, fun inc => ?_⟩
      unfold mainArgs
      dsimp only
      rw [if_neg h1, if_neg h2]
      exact h' inc

/-- A run that comes to read the reply has had its command line accepted. -/
theorem flagParse_of_ReplyRead (w : World) (h : (main w).ReplyRead) :
    w.flagParse = FlagParse.parsed := by
  unfold Run.ReplyRead main at h
  rcases hf : w.flagParse with _ | _ | message
  · rfl
  · rw [hf] at h
    simp [osExit] at h
  · rw [hf] at h
    simp [osExit] at h

/-- A run that comes to read the reply is, whatever the proxy then sends, the reply part of
`main` started with the same host, the same effects so far (no HTTP write among them) and
the deferred close; the dial and the write of the request have succeeded. -/
theorem main_of_ReplyRead (w : World) (h : (main w).ReplyRead) :
    ∃ host tr, (∀ data, Event.connWrite data ∉ tr) ∧ w.dialErr = none ∧ w.sendErr = none
      ∧ ∀ inc, main { w with incoming := inc }
          = mainReply { w with incoming := inc } host tr [Event.connClose] := by
  have hf := flagParse_of_ReplyRead w h
  rw [main_parsed w hf] at h
  obtain ⟨host, tr, hw, hd, hs, hm⟩ := mainArgs_of_ReplyRead w h
  refine ⟨host, tr, hw, hd, hs, fun inc => ?_⟩
  rw [main_parsed { w with incoming := inc } hf]
  exact hm inc

theorem Run.Tunneled_iff (r : Run) :
    r.Tunneled = true ↔ ∃ data, Event.connWrite data ∈ r.trace := by
  unfold Run.Tunneled
  rw [List.any_eq_true]
  constructor
  · rintro ⟨e, he, hm⟩
    cases e <;> simp at hm
    exact ⟨_, he⟩
  · rintro ⟨data, hd⟩
    exact ⟨_, hd, rfl⟩

theorem binaryRead_short (incoming : Bytes) (streamErr : Option Bytes)
    (h : incoming.length < 8) : ∃ err, binaryRead incoming streamErr = .error err := by
  unfold binaryRead
  rw [if_neg (by omega)]
  rcases streamErr with _ | e
  · by_cases h0 : incoming.length = 0
    · exact ⟨str "EOF", by simp [h0]⟩
    · exact ⟨str "unexpected EOF", by simp [h0]⟩
  · exact ⟨e, rfl⟩

theorem binaryRead_full (incoming : Bytes) (streamErr : Option Bytes)
    (h : 8 ≤ incoming.length) :
    binaryRead incoming streamErr
      = .ok ({ Vn := incoming.getD 0 0, Cd := incoming.getD 1 0 }, incoming.drop 8) := by
  unfold binaryRead
  rw [if_pos h]

theorem mainReply_short (w : World) (host : Bytes) (tr d : List Event) (err : Bytes)
    (h : binaryRead w.incoming w.streamErr = .error err) :
    mainReply w host tr d
      = { trace := tr ++ [Event.binaryRead 8,
            Event.stderr (str "Error reading response: " ++ err ++ str "\n")],
          exitCode := 1 } := by
  unfold mainReply
  simp [h, osExit]

theorem mainReply_rejected (w : World) (host : Bytes) (tr d : List Event)
    (h8 : 8 ≤ w.incoming.length) (hcd : w.incoming.getD 1 0 ≠ 90) :
    mainReply w host tr d
      = { trace := tr ++ [Event.binaryRead 8,
            Event.stderr (str "Failed to connect: " ++ fmtNat (w.incoming.getD 1 0)
              ++ str "\n")],
          exitCode := 1 } := by
  unfold mainReply
  rw [binaryRead_full w.incoming w.streamErr h8]
  dsimp only
  rw [if_pos hcd]
  simp [osExit]

theorem mainReply_granted (w : World) (host : Bytes) (tr d : List Event)
    (h8 : 8 ≤ w.incoming.length) (hcd : w.incoming.getD 1 0 = 90) :
    Event.connWrite (str "HEAD / HTTP/1.1\r\nHost: " ++ host ++ str "\r\n\r\n")
      ∈ (mainReply w host tr d).trace := by
  unfold mainReply
  rw [binaryRead_full w.incoming w.streamErr h8]
  dsimp only
  rw [if_neg (fun hn => hn hcd)]
  repeat' split
  all_goals simp [osExit, returnFromMain]

theorem fmtNat_octet_inj (a b : Nat) (ha : a < 256) (hb : b < 256)
    (h : fmtNat a = fmtNat b) : a = b := by
  rw [fmtNat_octet a ha, fmtNat_octet b hb] at h
  split_ifs at h <;> simp at h <;> omega

/-- The outcome of the reply part of `main` on a full reply with status byte `cd`. -/
theorem mainReply_status (w : World) (host : Bytes) (tr : List Event) (v cd : Nat)
    (reserved rest : Bytes) (hin : w.incoming = v :: cd :: reserved ++ rest)
    (hres : reserved.length = 6) (hcd : cd < 256)
    (htr : ∀ data, Event.connWrite data ∉ tr) :
    ((mainReply w host tr [Event.connClose]).Tunneled = true ↔ cd = 90)
      ∧ (cd ≠ 90 → (mainReply w host tr [Event.connClose]).Rejected cd
          ∧ ∀ c < 256, (mainReply w host tr [Event.connClose]).Rejected c → c = cd) := by
  have h8 : 8 ≤ w.incoming.length := by rw [hin]; simp; omega
  have h1 : w.incoming.getD 1 0 = cd := by rw [hin]; rfl
  constructor
  · constructor
    · intro ht
      by_contra hne
      rw [mainReply_rejected w host tr _ h8 (by rw [h1]; exact hne), Run.Tunneled_iff] at ht
      obtain ⟨data, hd⟩ := ht
      simp [htr] at hd
    · intro h90
      rw [Run.Tunneled_iff]
      exact ⟨_, mainReply_granted w host tr _ h8 (by rw [h1]; exact h90)⟩
  · intro hne
    rw [mainReply_rejected w host tr _ h8 (by rw [h1]; exact hne), h1]
    constructor
    · exact ⟨rfl, by simp⟩
    · intro c hc hrej
      have := hrej.2
      simp at this
      exact fmtNat_octet_inj c cd hc hcd this.symm

/-- C5: in a run that comes to read the reply, for every reply whose first 8 bytes are a
version byte, a status byte `cd` and six reserved bytes, the session reaches `Tunneled`
(goes on to the HTTP request) if and only if `cd = 90`; for every other status it ends in
`Failed` with the rejection diagnostic carrying exactly `cd`; and the outcome is the same
for any other version byte and reserved bytes. -/
theorem status_interpretation (w : World) (v cd : Nat) (reserved rest : Bytes)
    (hin : w.incoming = v :: cd :: reserved ++ rest) (hres : reserved.length = 6)
    (hcd : cd < 256) (hreach : (main w).ReplyRead) :
    ((main w).Tunneled = true ↔ cd = 90)
      ∧ (cd ≠ 90 → (main w).Rejected cd ∧ (main w).exitCode = 1
          ∧ ∀ c < 256, (main w).Rejected c → c = cd)
      ∧ ∀ (v' : Nat) (reserved' rest' : Bytes), reserved'.length = 6 →
          ((main { w with incoming := v' :: cd :: reserved' ++ rest' }).Tunneled = true
            ↔ cd = 90)
          ∧ (cd ≠ 90 →
              (main { w with incoming := v' :: cd :: reserved' ++ rest' }).Rejected cd) := by
  obtain ⟨host, tr, htr, -, -, hmain⟩ := main_of_ReplyRead w hreach
  have hw := hmain w.incoming
  rw [World.incoming_eta] at hw
  have hs := mainReply_status w host tr v cd reserved rest hin hres hcd htr
  rw [← hw] at hs
  refine ⟨hs.1, fun hne => ⟨(hs.2 hne).1, (hs.2 hne).1.1, (hs.2 hne).2⟩, ?_⟩
  intro v' reserved' rest' hres'
  have hs' := mainReply_status { w with incoming := v' :: cd :: reserved' ++ rest' } host tr
    v' cd reserved' rest' rfl hres' hcd htr
  rw [← hmain] at hs'
  exact ⟨hs'.1, fun hne => (hs'.2 hne).1⟩

/-- Witness of C5: the reply `00 5B 00 00 00 00 00 00` (status 91) ends the run in `Failed`
with code 91 and exit code 1; the reply `00 5A 00 00 00 00 00 00` (status 90) reaches
`Tunneled`. -/
theorem status_interpretation_witness :
    (main (replyWorld [0, 0x5B, 0, 0, 0, 0, 0, 0])).ReplyRead
      ∧ (main (replyWorld [0, 0x5B, 0, 0, 0, 0, 0, 0])).Rejected 91
      ∧ (main (replyWorld [0, 0x5B, 0, 0, 0, 0, 0, 0])).exitCode = 1
      ∧ (main (replyWorld [0, 0x5B, 0, 0, 0, 0, 0, 0])).Tunneled = false
      ∧ (main (replyWorld [0, 0x5A, 0, 0, 0, 0, 0, 0])).Tunneled = true :=
  ⟨by unfold Run.ReplyRead; decide,
    ((status_interpretation (replyWorld [0, 0x5B, 0, 0, 0, 0, 0, 0]) 0 91 [0, 0, 0, 0, 0, 0] []
      rfl rfl (by decide) (by unfold Run.ReplyRead; decide)).2.1 (by decide)).1,
    by decide, by decide,
    (status_interpretation (replyWorld [0, 0x5A, 0, 0, 0, 0, 0, 0]) 0 90 [0, 0, 0, 0, 0, 0] []
      rfl rfl (by decide) (by unfold Run.ReplyRead; decide)).1.mpr rfl⟩

/-- C6: in a run that comes to read the reply, when the proxy supplies fewer than 8 bytes
before the stream ends, `binary.Read` fails, the run ends with exit code 1 on the read-error
diagnostic, it does not reach `Tunneled` and reports no rejection, whatever the bytes
received; when at least 8 bytes are supplied, `binary.Read` succeeds, takes the version and
status from the first two bytes, and leaves everything after the first 8 bytes unread. -/
theorem short_reply (w : World) (hreach : (main w).ReplyRead) :
    (w.incoming.length < 8 →
        ∃ err, binaryRead w.incoming w.streamErr = .error err
          ∧ (main w).ReadFailed err ∧ (main w).exitCode = 1
          ∧ (main w).Tunneled = false ∧ ∀ c, ¬ (main w).Rejected c)
      ∧ (8 ≤ w.incoming.length →
          binaryRead w.incoming w.streamErr
            = .ok ({ Vn := w.incoming.getD 0 0, Cd := w.incoming.getD 1 0 },
                w.incoming.drop 8)) := by
  obtain ⟨host, tr, htr, -, -, hmain⟩ := main_of_ReplyRead w hreach
  have hw := hmain w.incoming
  rw [World.incoming_eta] at hw
  refine ⟨fun hlt => ?_, binaryRead_full w.incoming w.streamErr⟩
  obtain ⟨err, herr⟩ := binaryRead_short w.incoming w.streamErr hlt
  have hrun := mainReply_short w host tr [Event.connClose] err herr
  rw [← hw] at hrun
  refine ⟨err, herr, ?_, ?_, ?_, ?_⟩
  · rw [hrun]
    exact ⟨rfl, by simp⟩
  · rw [hrun]
  · cases ht : (main w).Tunneled with
    | false => rfl
    | true =>
      rw [Run.Tunneled_iff, hrun] at ht
      obtain ⟨data, hd⟩ := ht
      simp [htr] at hd
  · intro c hrej
    have := hrej.2
    rw [hrun] at this
    simp [str] at this

/-- Witness of C6: the truncated reply `00 5A 00`, whose second byte is 90, ends the run
with a read error and exit code 1, without reaching `Tunneled`. -/
theorem short_reply_witness :
    (main (replyWorld [0, 0x5A, 0])).ReplyRead
      ∧ (∃ err, binaryRead [0, 0x5A, 0] none = .error err
          ∧ (main (replyWorld [0, 0x5A, 0])).ReadFailed err
          ∧ (main (replyWorld [0, 0x5A, 0])).exitCode = 1
          ∧ (main (replyWorld [0, 0x5A, 0])).Tunneled = false
          ∧ ∀ c, ¬ (main (replyWorld [0, 0x5A, 0])).Rejected c)
      ∧ binaryRead [0, 0x5A, 0] none = .error (str "unexpected EOF") :=
  ⟨by unfold Run.ReplyRead; decide,
    (short_reply (replyWorld [0, 0x5A, 0]) (by unfold Run.ReplyRead; decide)).1 (by decide),
    by decide⟩

/-! ### Exit code and release of the connection -/

theorem connRead_other (size : Nat) (incoming : Bytes) (streamErr : Option Bytes)
    (chunk : Nat) (data err : Bytes) :
    connRead size incoming streamErr chunk = (data, some (ReadErr.other err))
      ↔ incoming.length = 0 ∧ streamErr = some err ∧ data = [] := by
  unfold connRead
  by_cases h0 : incoming.length = 0
  · rw [if_neg (by simpa using h0)]
    rcases streamErr with _ | e
    · simp [h0]
    · simp only [Prod.mk.injEq, Option.some.injEq, ReadErr.other.injEq, h0, true_and]
      constructor <;> rintro ⟨h1, h2⟩ <;> simp_all
  · rw [if_pos h0]
    simp [h0]

theorem mainReply_exitCode (w : World) (host : Bytes) (tr d : List Event) :
    ((mainReply w host tr d).exitCode = 0 ∨ (mainReply w host tr d).exitCode = 1)
      ∧ ((mainReply w host tr d).exitCode = 0 ↔
          8 ≤ w.incoming.length ∧ w.incoming.getD 1 0 = 90 ∧ w.httpSendErr = none
            ∧ (8 < w.incoming.length ∨ w.streamErr = none)) := by
  by_cases h8 : 8 ≤ w.incoming.length
  · by_cases hcd : w.incoming.getD 1 0 = 90
    · unfold mainReply
      rw [binaryRead_full w.incoming w.streamErr h8]
      dsimp only
      rw [if_neg (fun hn => hn hcd)]
      rcases Option.eq_none_or_eq_some w.httpSendErr with hs | ⟨e, hs⟩
      · rw [hs]
        dsimp only
        rcases hr : connRead 4096 (List.drop 8 w.incoming) w.streamErr w.chunk with ⟨data, rerr⟩
        have hother := connRead_other 4096 (List.drop 8 w.incoming) w.streamErr w.chunk data
        rw [hr] at hother
        have hok : ∀ rerr', (∀ e, rerr' ≠ some (ReadErr.other e)) →
            connRead 4096 (List.drop 8 w.incoming) w.streamErr w.chunk = (data, rerr') →
            8 < w.incoming.length ∨ w.streamErr = none := by
          intro rerr' hne hc
          by_cases hl : 8 < w.incoming.length
          · exact Or.inl hl
          · right
            rcases Option.eq_none_or_eq_some w.streamErr with hn | ⟨e, hse⟩
            · exact hn
            · exfalso
              unfold connRead at hc
              rw [if_neg (by simp; omega), hse] at hc
              simp only [Prod.mk.injEq] at hc
              exact hne e hc.2.symm
        rcases rerr with _ | (_ | e)
        · refine ⟨Or.inl rfl, Iff.intro (fun _ => ?_) (fun _ => rfl)⟩
          exact ⟨h8, hcd, rfl, hok _ (by simp) hr⟩
        · refine ⟨Or.inl rfl, Iff.intro (fun _ => ?_) (fun _ => rfl)⟩
          exact ⟨h8, hcd, rfl, hok _ (by simp) hr⟩
        · refine ⟨Or.inr rfl, Iff.intro (fun h => absurd h (by simp [osExit])) (fun h => ?_)⟩
          exfalso
          have h3 := (hother e).mp rfl
          rcases h.2.2.2 with hl | hn
          · have := h3.1
            simp at this
            omega
          · rw [hn] at h3
            cases h3.2.1
      · rw [hs]
        refine ⟨Or.inr rfl, Iff.intro (fun h => absurd h (by simp [osExit])) (fun h => ?_)⟩
        cases h.2.2.1
    · rw [mainReply_rejected w host tr d h8 hcd]
      exact ⟨Or.inr rfl, Iff.intro (fun h => absurd h (by simp)) (fun h => absurd h.2.1 hcd)⟩
  · obtain ⟨err, herr⟩ := binaryRead_short w.incoming w.streamErr (by omega)
    rw [mainReply_short w host tr d err herr]
    exact ⟨Or.inr rfl, Iff.intro (fun h => absurd h (by simp)) (fun h => absurd h.1 h8)⟩

theorem mainConnect_cases (w : World) (host : Bytes) (tr : List Event)
    (htr : ∀ e ∈ tr, ∃ h, e = Event.lookupHost h) :
    (∃ req tr', CreateRequest host w.port = .ok req ∧ w.dialErr = none ∧ w.sendErr = none
        ∧ mainConnect w host tr = mainReply w host tr' [Event.connClose]
        ∧ Event.connClose ∉ tr')
      ∨ ((mainConnect w host tr).exitCode = 1
        ∧ Event.connClose ∉ (mainConnect w host tr).trace
        ∧ ¬ ((∃ req, CreateRequest host w.port = .ok req) ∧ w.dialErr = none
            ∧ w.sendErr = none)) := by
  have hnc : Event.connClose ∉ tr := fun hm => by
    obtain ⟨x, hx⟩ := htr _ hm; cases hx
  unfold mainConnect
  rcases hreq : CreateRequest host w.port with err | req
  · right
    refine ⟨rfl, by simp [osExit, hnc], ?_⟩
    rintro ⟨⟨req, hr⟩, -⟩
    cases hr
  · rcases Option.eq_none_or_eq_some w.dialErr with hdial | ⟨err, hdial⟩
    · rcases Option.eq_none_or_eq_some w.sendErr with hsend | ⟨err, hsend⟩
      · left
        refine ⟨req, (if w.verbose then
            tr ++ [Event.dial (ProxyIP ++ str ":" ++ fmtNat ProxyPort)]
              ++ [Event.stdout (str "Connected to proxy...\n")]
          else tr ++ [Event.dial (ProxyIP ++ str ":" ++ fmtNat ProxyPort)])
          ++ [Event.binaryWrite (binaryWrite req)], rfl, hdial, hsend, ?_, ?_⟩
        · dsimp only
          rw [hdial]
          dsimp only
          rw [hsend]
        · split <;> simp [hnc]
      · right
        dsimp only
        rw [hdial]
        dsimp only
        rw [hsend]
        refine ⟨rfl, ?_, ?_⟩
        · simp only [osExit]
          split <;> simp [hnc]
        · rintro ⟨-, -, h⟩
          cases h
    · right
      dsimp only
      rw [hdial]
      refine ⟨rfl, by simp [osExit, hnc], ?_⟩
      rintro ⟨-, h, -⟩
      cases h

/-- Every run with an accepted command line either comes to the reply part of `main`,
after valid arguments, a settled target, a request created, a successful dial and a
successful write of the request, with no close performed so far; or it ends with exit
code 1 without any close, one of these steps having failed. -/
theorem mainArgs_cases (w : World) (hflag : w.flagParse = FlagParse.parsed) :
    (∃ host req tr, w.Resolved host ∧ CreateRequest host w.port = .ok req
        ∧ w.dialErr = none ∧ w.sendErr = none
        ∧ mainArgs w = mainReply w host tr [Event.connClose] ∧ Event.connClose ∉ tr)
      ∨ ((mainArgs w).exitCode = 1 ∧ Event.connClose ∉ (mainArgs w).trace
        ∧ ¬ ∃ host, w.Resolved host ∧ (∃ req, CreateRequest host w.port = .ok req)
            ∧ w.dialErr = none ∧ w.sendErr = none) := by
  unfold mainArgs
  by_cases h1 : (w.url = [] ∧ w.ip = []) ∨ w.port = 0
  · right
    rw [if_pos h1]
    refine ⟨rfl, by simp [osExit], ?_⟩
    rintro ⟨host, hres, -⟩
    exact hres.2.1 h1
  · rw [if_neg h1]
    dsimp only
    by_cases h2 : ParseIP (if w.ip ≠ [] then w.ip else w.url) = none
    · rw [if_pos h2]
      rcases hres : ResolveHost w.LookupHost (if w.ip ≠ [] then w.ip else w.url)
        with err | resolvedIP
      · right
        refine ⟨rfl, by simp [osExit], ?_⟩
        rintro ⟨host, hr, -⟩
        rcases hr.2.2 with ⟨-, hok⟩ | ⟨hne, -⟩
        · unfold World.hostArg at hok
          rw [hres] at hok
          cases hok
        · exact hne h2
      · dsimp only
        rcases mainConnect_cases w resolvedIP
          [Event.lookupHost (if w.ip ≠ [] then w.ip else w.url)] (by simp) with
          ⟨req, tr', hreq, hd, hs, hm, hc⟩ | ⟨he, hc, hn⟩
        · left
          exact ⟨resolvedIP, req, tr', ⟨hflag, h1, Or.inl ⟨h2, hres⟩⟩, hreq, hd, hs, hm, hc⟩
        · right
          refine ⟨he, hc, ?_⟩
          rintro ⟨host, hr, hrest⟩
          rcases hr.2.2 with ⟨-, hok⟩ | ⟨hne, -⟩
          · unfold World.hostArg at hok
            rw [hres] at hok
            injection hok with hok
            subst hok
            exact hn hrest
          · exact hne h2
    · rw [if_neg h2]
      rcases mainConnect_cases w (if w.ip ≠ [] then w.ip else w.url) [] (by simp) with
        ⟨req, tr', hreq, hd, hs, hm, hc⟩ | ⟨he, hc, hn⟩
      · left
        exact ⟨_, req, tr', ⟨hflag, h1, Or.inr ⟨h2, rfl⟩⟩, hreq, hd, hs, hm, hc⟩
      · right
        refine ⟨he, hc, ?_⟩
        rintro ⟨host, hr, hrest⟩
        rcases hr.2.2 with ⟨hp, -⟩ | ⟨-, hh⟩
        · exact h2 hp
        · subst hh
          exact hn hrest

theorem mainReply_close (w : World) (host : Bytes) (tr : List Event)
    (hc : Event.connClose ∉ tr) :
    (mainReply w host tr [Event.connClose]).trace.count Event.connClose
      = if (mainReply w host tr [Event.connClose]).exitCode = 0 then 1 else 0 := by
  have h0 : tr.count Event.connClose = 0 := List.count_eq_zero.mpr hc
  unfold mainReply
  repeat' split
  all_goals simp_all [osExit, returnFromMain, List.count_append, List.count_cons]

theorem mainReply_exit_zero_trace (w : World) (host : Bytes) (tr d : List Event)
    (h : (mainReply w host tr d).exitCode = 0) :
    Event.binaryRead 8 ∈ (mainReply w host tr d).trace
      ∧ Event.connWrite (str "HEAD / HTTP/1.1\r\nHost: " ++ host ++ str "\r\n\r\n")
        ∈ (mainReply w host tr d).trace
      ∧ Event.connRead 4096 ∈ (mainReply w host tr d).trace := by
  unfold mainReply at h ⊢
  repeat' split at h
  all_goals simp_all [osExit, returnFromMain]

/-- The deferred close runs once in the runs that return from `main` with exit code 0 and
in no other run. -/
theorem connClose_count (w : World) :
    (main w).trace.count Event.connClose
      = if (main w).exitCode = 0 ∧ w.flagParse = FlagParse.parsed then 1 else 0 := by
  rcases hf : w.flagParse with _ | _ | message
  · rw [main_parsed w hf]
    rcases mainArgs_cases w hf with ⟨host, req, tr, -, -, -, -, hm, hc⟩ | ⟨he, hc, -⟩
    · rw [hm, mainReply_close w host tr hc]
      simp
    · rw [he, List.count_eq_zero.mpr hc]
      simp
  · unfold main
    rw [hf]
    simp [osExit]
  · unfold main
    rw [hf]
    simp [osExit]

/-- C8 fails on the code: when the proxy rejects the request (reply `00 5C 00 00 00 00 00
00`, status 92) the dial has succeeded, the run ends with exit code 1, and its trace holds
no close of the connection; the close is performed once in the run that completes. -/
theorem close_skipped_on_rejection :
    Event.dial (str "127.0.0.1:9050") ∈ (main (replyWorld [0, 0x5C, 0, 0, 0, 0, 0, 0])).trace
      ∧ (main (replyWorld [0, 0x5C, 0, 0, 0, 0, 0, 0])).exitCode = 1
      ∧ (main (replyWorld [0, 0x5C, 0, 0, 0, 0, 0, 0])).trace.count Event.connClose = 0
      ∧ (main (replyWorld ([0, 0x5A, 0, 0, 0, 0, 0, 0] ++ str "HTTP/1.1 200 OK\r\n\r\n"))).trace.count
          Event.connClose = 1 := by
  decide

/-- C9, as the code has it: the exit code is 0, 1 or 2. It is 2 exactly when `flag.Parse`
rejects the command line. It is 0 exactly when help is requested (`-h`, `-help`), or when
the command line is accepted, the arguments are valid, the target is settled, the request
is created, the dial and the write of the request succeed, the proxy supplies 8 reply
bytes with status 90, the HEAD request is written, and the HTTP read returns bytes or meets
the end of the stream (it does not fail with another error). In every other run, where the
command line is accepted and one of these steps fails, it is 1. A run with exit code 0
that is not a request for help has read the reply, written the HEAD request and read from
the tunnel; a request for help performs no dial. -/
theorem exit_code (w : World) :
    ((main w).exitCode = 0 ∨ (main w).exitCode = 1 ∨ (main w).exitCode = 2)
      ∧ ((main w).exitCode = 2 ↔ ∃ message, w.flagParse = FlagParse.failed message)
      ∧ ((main w).exitCode = 0 ↔
          w.flagParse = FlagParse.help
          ∨ ∃ host req, w.Resolved host ∧ CreateRequest host w.port = .ok req
            ∧ w.dialErr = none ∧ w.sendErr = none
            ∧ 8 ≤ w.incoming.length ∧ w.incoming.getD 1 0 = 90 ∧ w.httpSendErr = none
            ∧ (8 < w.incoming.length ∨ w.streamErr = none))
      ∧ ((main w).exitCode = 1 ↔
          w.flagParse = FlagParse.parsed
          ∧ ¬ ∃ host req, w.Resolved host ∧ CreateRequest host w.port = .ok req
            ∧ w.dialErr = none ∧ w.sendErr = none
            ∧ 8 ≤ w.incoming.length ∧ w.incoming.getD 1 0 = 90 ∧ w.httpSendErr = none
            ∧ (8 < w.incoming.length ∨ w.streamErr = none))
      ∧ ((main w).exitCode = 0 → w.flagParse ≠ FlagParse.help →
          (main w).ReplyRead ∧ (main w).Tunneled = true
            ∧ Event.connRead 4096 ∈ (main w).trace)
      ∧ (w.flagParse = FlagParse.help → ∀ addr, Event.dial addr ∉ (main w).trace) := by
  rcases hf : w.flagParse with _ | _ | message
  · rw [main_parsed w hf]
    rcases mainArgs_cases w hf with ⟨host, req, tr, hres, hreq, hd, hs, hm, -⟩ | ⟨he, -, hn⟩
    · rw [hm]
      have hex := mainReply_exitCode w host tr [Event.connClose]
      have hiff : (mainReply w host tr [Event.connClose]).exitCode = 0 ↔
          ∃ host req, w.Resolved host ∧ CreateRequest host w.port = .ok req
            ∧ w.dialErr = none ∧ w.sendErr = none
            ∧ 8 ≤ w.incoming.length ∧ w.incoming.getD 1 0 = 90 ∧ w.httpSendErr = none
            ∧ (8 < w.incoming.length ∨ w.streamErr = none) := by
        rw [hex.2]
        constructor
        · rintro ⟨h8, hcd, hh, hr⟩
          exact ⟨host, req, hres, hreq, hd, hs, h8, hcd, hh, hr⟩
        · rintro ⟨-, -, -, -, -, -, h8, hcd, hh, hr⟩
          exact ⟨h8, hcd, hh, hr⟩
      refine ⟨?_, ?_, ?_, ?_, ?_, ?_⟩
      · rcases hex.1 with h | h
        · exact Or.inl h
        · exact Or.inr (Or.inl h)
      · constructor
        · intro h2
          rcases hex.1 with h | h <;> rw [h] at h2 <;> cases h2
        · rintro ⟨m, hm'⟩
          cases hm'
      · rw [hiff]
        constructor
        · intro h; exact Or.inr h
        · rintro (h | h)
          · cases h
          · exact h
      · rw [← hiff]
        constructor
        · intro h1
          exact ⟨rfl, fun h0 => by rw [h0] at h1; cases h1⟩
        · rintro ⟨-, hne⟩
          rcases hex.1 with h | h
          · exact absurd h hne
          · exact h
      · intro h0 _
        obtain ⟨h1, h2, h3⟩ := mainReply_exit_zero_trace w host tr _ h0
        exact ⟨h1, (Run.Tunneled_iff _).mpr ⟨_, h2⟩, h3⟩
      · intro h
        cases h
    · have hno : ¬ ∃ host req, w.Resolved host ∧ CreateRequest host w.port = .ok req
            ∧ w.dialErr = none ∧ w.sendErr = none
            ∧ 8 ≤ w.incoming.length ∧ w.incoming.getD 1 0 = 90 ∧ w.httpSendErr = none
            ∧ (8 < w.incoming.length ∨ w.streamErr = none) := by
        rintro ⟨host, req, hres, hreq, hd, hs, -⟩
        exact hn ⟨host, hres, ⟨req, hreq⟩, hd, hs⟩
      refine ⟨Or.inr (Or.inl he), ?_, ?_, ?_, ?_, ?_⟩
      · constructor
        · intro h2
          rw [he] at h2
          cases h2
        · rintro ⟨m, hm'⟩
          cases hm'
      · constructor
        · intro h0
          rw [he] at h0
          cases h0
        · rintro (h | h)
          · cases h
          · exact absurd h hno
      · constructor
        · intro _
          exact ⟨rfl, hno⟩
        · intro _
          exact he
      · intro h0
        rw [he] at h0
        cases h0
      · intro h
        cases h
  · have hm : main w = osExit [Event.stderr (flagUsage w.arg0)] [] 0 := by
      unfold main
      rw [hf]
    rw [hm]
    refine ⟨Or.inl rfl, ?_, ?_, ?_, ?_, ?_⟩
    · constructor
      · intro h
        cases h
      · rintro ⟨m, hm'⟩
        cases hm'
    · constructor
      · intro _
        exact Or.inl rfl
      · intro _
        rfl
    · constructor
      · intro h
        cases h
      · rintro ⟨h, -⟩
        cases h
    · intro _ hne
      exact absurd rfl hne
    · intro _ addr
      simp [osExit]
  · have hm : main w
        = osExit [Event.stderr (message ++ str "\n"), Event.stderr (flagUsage w.arg0)] [] 2 := by
      unfold main
      rw [hf]
    rw [hm]
    refine ⟨Or.inr (Or.inr rfl), ?_, ?_, ?_, ?_, ?_⟩
    · constructor
      · intro _
        exact ⟨message, rfl⟩
      · intro _
        rfl
    · constructor
      · intro h
        cases h
      · rintro (h | ⟨host, req, hres, -⟩)
        · cases h
        · have := hres.1
          rw [hf] at this
          cases this
    · constructor
      · intro h
        cases h
      · rintro ⟨h, -⟩
        cases h
    · intro h
      cases h
    · intro h
      cases h

/-- C9 as stated fails: when the proxy grants the request and then closes, the HTTP read
meets the end of the stream with no response bytes, and the run still exits with code 0,
having printed an empty line; and a request for help exits with code 0 after printing the
usage, with no dial and no handshake. -/
theorem exit_zero_without_exchange :
    binaryRead [0, 0x5A, 0, 0, 0, 0, 0, 0] none = .ok ({ Vn := 0, Cd := 90 }, [])
      ∧ connRead 4096 [] none 4095 = ([], some ReadErr.EOF)
      ∧ (main (replyWorld [0, 0x5A, 0, 0, 0, 0, 0, 0])).exitCode = 0
      ∧ (main (replyWorld [0, 0x5A, 0, 0, 0, 0, 0, 0])).trace.getLast?
          = some Event.connClose
      ∧ Event.stdout (str "\n") ∈ (main (replyWorld [0, 0x5A, 0, 0, 0, 0, 0, 0])).trace
      ∧ main { replyWorld [] with flagParse := FlagParse.help }
          = { trace := [Event.stderr (flagUsage (str "tormask"))], exitCode := 0 } := by
  decide

/-! ### Adequacy of the model of `net.ParseIP` -/

/-- Nine units of fuel are enough for the loop of `parseIPv6`: from an index `i` with
`16 ≤ i + 2 * fuel`, one more unit of fuel does not change the result. -/
theorem parseIPv6Loop_fuel (fuel : Nat) :
    ∀ (s ip : Bytes) (ellipsis : Int) (i : Nat), 16 ≤ i + 2 * fuel →
      parseIPv6Loop (fuel + 1) s ip ellipsis i = parseIPv6Loop (fuel + 2) s ip ellipsis i := by
  induction fuel with
  | zero =>
    intro s ip ellipsis i h
    rw [parseIPv6Loop, parseIPv6Loop, if_pos (by omega), if_pos (by omega)]
  | succ n ih =>
    intro s ip ellipsis i h
    conv_lhs => rw [parseIPv6Loop]
    conv_rhs => rw [parseIPv6Loop]
    simp only [ih _ _ _ (i + 2) (by omega)]

/-- Whenever `net.ParseIP` rejects the destination, `CreateRequest` fails with the
invalid-address error. -/
theorem CreateRequest_malformed (dstip : Bytes) (port : Int) (h : ParseIP dstip = none) :
    CreateRequest dstip port = .error (str "invalid IP address") := by
  simp [CreateRequest, CreateRequestWith, h]

end Tormask
